import Mathlib

/-!
Verification of the stereo-vision disparity MRF core.

The definitions below are a shallow embedding of the C++ sources:
images are 2-D integer buffers, `size_t` arithmetic is `Nat` with an
explicit wrap modulo `2 ^ 64` where the source can overflow, `double`
arithmetic is modelled by exact rationals, the infinite edge penalty is
the top element of `WithTop Rat`, and functions that throw
`invalid_argument` are modelled with `Except String` or guarded by
validity hypotheses.
-/

namespace StereoVision

/-- A 2-D pixel buffer: the `Matrix` of matrix.hpp, with the pixel
contents abstracted as an integer-valued function (colors are cast to
`double` before any arithmetic in the source). -/
structure Img where
  rows : Nat
  cols : Nat
  pix : Nat → Nat → Int

/-- The node structure of disparity_graph.hpp: a right-image pixel
together with a candidate disparity label. -/
structure DisparityNode where
  row : Nat
  column : Nat
  disparity : Nat
  deriving DecidableEq, Repr

instance : Inhabited DisparityNode := ⟨⟨0, 0, 0⟩⟩

/-- The DisparityGraph data: left and right images plus the consistency
weight alpha. -/
structure DisparityGraph where
  leftImage : Img
  rightImage : Img
  consistency : Rat

/-- The bound of one `size_t` machine word. -/
def size64 : Nat := 2 ^ 64

/-- `size_t` subtraction: wraps modulo `2 ^ 64` (faithful for operands
below `2 ^ 64`). -/
def subWrap (a b : Nat) : Nat := (size64 + a - b) % size64

/-- `size_t` multiplication: wraps modulo `2 ^ 64`. -/
def mulWrap (a b : Nat) : Nat := (a * b) % size64

/-- DisparityGraph::checkNode succeeds: coordinates inside the right
image and the disparity does not lead out of the left image. -/
def checkNodeB (g : DisparityGraph) (node : DisparityNode) : Bool :=
  decide (node.row < g.rightImage.rows) &&
  decide (node.column < g.rightImage.cols) &&
  decide (node.column + node.disparity < g.leftImage.cols)

/-- DisparityGraph::checkEdge_ succeeds: the two nodes are valid and do
not share the same pixel. -/
def checkEdgeB (g : DisparityGraph) (nodeA nodeB : DisparityNode) : Bool :=
  !(decide (nodeA.column = nodeB.column) && decide (nodeA.row = nodeB.row)) &&
  checkNodeB g nodeA && checkNodeB g nodeB

/-- DisparityGraph::nodeNeighborsCount_: the number of existing
left/right/top/bottom neighbors, where the `directed` flag drops the
left and top ones. -/
def nodeNeighborsCount (g : DisparityGraph) (node : DisparityNode)
    (directed : Bool) : Nat :=
  (if 0 < node.row ∧ directed = false then 1 else 0)
  + (if node.row < g.rightImage.rows - 1 then 1 else 0)
  + (if 0 < node.column ∧ directed = false then 1 else 0)
  + (if node.column < g.rightImage.cols - 1 then 1 else 0)

/-- DisparityGraph::nodePenalty: squared difference between the right
pixel and the left pixel shifted by the disparity. -/
def nodePenalty (g : DisparityGraph) (node : DisparityNode) : Rat :=
  let difference : Rat :=
    ((g.rightImage.pix node.row node.column : Int) : Rat)
    - ((g.leftImage.pix node.row (node.column + node.disparity) : Int) : Rat)
  difference * difference

/-- DisparityGraph::edgeExists (part_007 version): 4-adjacency plus the
horizontal ordering constraint, transcribed with its conditional swaps
of rows and of column/disparity pairs. -/
def edgeExists (nodeA nodeB : DisparityNode) : Bool :=
  if nodeA.row ≠ nodeB.row ∧ nodeA.column ≠ nodeB.column then
    false
  else
    let topRow := if nodeB.row < nodeA.row then nodeB.row else nodeA.row
    let bottomRow := if nodeB.row < nodeA.row then nodeA.row else nodeB.row
    if topRow + 1 < bottomRow then
      false
    else if nodeA.column = nodeB.column then
      true
    else
      let leftDisparity :=
        if nodeB.column < nodeA.column then nodeB.disparity else nodeA.disparity
      let rightDisparity :=
        if nodeB.column < nodeA.column then nodeA.disparity else nodeB.disparity
      let leftColumn :=
        if nodeB.column < nodeA.column then nodeB.column else nodeA.column
      let rightColumn :=
        if nodeB.column < nodeA.column then nodeA.column else nodeB.column
      if leftColumn + 1 < rightColumn ∨ rightDisparity + 1 < leftDisparity then
        false
      else
        true

/-- DisparityGraph::penalty: infinite when the edge does not exist,
otherwise the normalized node penalties plus the consistency-weighted
squared disparity difference.  The disparity difference is computed in
`size_t` arithmetic exactly as in the source, hence the wrap. -/
def penalty (g : DisparityGraph) (nodeA nodeB : DisparityNode) : WithTop Rat :=
  if edgeExists nodeA nodeB = false then
    (⊤ : WithTop Rat)
  else
    let nodesPenalty : Rat :=
      nodePenalty g nodeA / (nodeNeighborsCount g nodeA false : Rat)
      + nodePenalty g nodeB / (nodeNeighborsCount g nodeB false : Rat)
    let neighboringPenalty : Rat :=
      (mulWrap (subWrap nodeA.disparity nodeB.disparity)
               (subWrap nodeA.disparity nodeB.disparity) : Nat)
    ((nodesPenalty + g.consistency * neighboringPenalty : Rat) : WithTop Rat)

/-- Spec-side neighborhood size: the number of 4-adjacent integer
positions of the node that lie inside the right-image grid.  Written
from the wording of the claim, to be compared with the code's
nodeNeighborsCount_. -/
def inGridZ (g : DisparityGraph) (r c : Int) : Prop :=
  0 ≤ r ∧ r < (g.rightImage.rows : Int) ∧ 0 ≤ c ∧ c < (g.rightImage.cols : Int)

instance (g : DisparityGraph) (r c : Int) : Decidable (inGridZ g r c) := by
  unfold inGridZ; infer_instance

def specNeighborsCount (g : DisparityGraph) (node : DisparityNode) : Nat :=
  List.countP
    (fun p : Int × Int => decide (inGridZ g p.1 p.2))
    [((node.row : Int) - 1, (node.column : Int)),
     ((node.row : Int) + 1, (node.column : Int)),
     ((node.row : Int), (node.column : Int) - 1),
     ((node.row : Int), (node.column : Int) + 1)]

/-- Spec-side data term: the squared difference of the right pixel and
the left pixel shifted by the disparity, written independently of the
code. -/
def specNodeDataTerm (g : DisparityGraph) (node : DisparityNode) : Rat :=
  (((g.rightImage.pix node.row node.column
    - g.leftImage.pix node.row (node.column + node.disparity) : Int) : Rat)) ^ 2

lemma nodeNeighborsCount_eq_spec (g : DisparityGraph) (node : DisparityNode)
    (hrow : node.row < g.rightImage.rows)
    (hcol : node.column < g.rightImage.cols) :
    nodeNeighborsCount g node false = specNeighborsCount g node := by
  unfold nodeNeighborsCount specNeighborsCount
  have h1 : inGridZ g ((node.row : Int) - 1) (node.column : Int) ↔
      0 < node.row := by
    unfold inGridZ; omega
  have h2 : inGridZ g ((node.row : Int) + 1) (node.column : Int) ↔
      node.row < g.rightImage.rows - 1 := by
    unfold inGridZ; omega
  have h3 : inGridZ g (node.row : Int) ((node.column : Int) - 1) ↔
      0 < node.column := by
    unfold inGridZ; omega
  have h4 : inGridZ g (node.row : Int) ((node.column : Int) + 1) ↔
      node.column < g.rightImage.cols - 1 := by
    unfold inGridZ; omega
  simp only [List.countP_cons, List.countP_nil, decide_eq_true_eq,
    eq_self_iff_true, and_true]
  rw [if_congr h1 rfl rfl, if_congr h2 rfl rfl, if_congr h3 rfl rfl,
    if_congr h4 rfl rfl]
  split_ifs <;> omega

lemma subWrap_small {a b : Nat} (hb : b ≤ a) (h : a - b < size64) :
    subWrap a b = a - b := by
  unfold subWrap
  have h1 : size64 + a - b = size64 + (a - b) := by omega
  rw [h1, Nat.add_mod_left, Nat.mod_eq_of_lt h]

lemma subWrap_large {a b : Nat} (hab : a < b) (hb : b < size64) :
    subWrap a b = size64 - (b - a) := by
  unfold subWrap
  have h1 : size64 + a - b = size64 - (b - a) := by omega
  rw [h1, Nat.mod_eq_of_lt (by omega)]

/-- The wrapped square of a wrapped difference equals the true squared
difference whenever both operands are below `2 ^ 32`. -/
lemma mulWrap_subWrap_sq {a b : Nat} (ha : a < 2 ^ 32) (hb : b < 2 ^ 32) :
    ((mulWrap (subWrap a b) (subWrap a b) : Nat) : Rat)
      = ((a : Rat) - (b : Rat)) ^ 2 := by
  have hsize : (2 ^ 32) * (2 ^ 32) = size64 := by decide
  rcases le_or_lt b a with hba | hba
  · have hd : a - b < 2 ^ 32 := by omega
    rw [subWrap_small hba (by unfold size64; omega)]
    unfold mulWrap
    rw [Nat.mod_eq_of_lt (by calc (a - b) * (a - b) < 2 ^ 32 * (2 ^ 32) :=
          Nat.mul_lt_mul_of_lt_of_lt hd hd
        _ = size64 := hsize)]
    push_cast [hba]
    ring
  · have hb64 : b < size64 := by unfold size64; omega
    rw [subWrap_large hba hb64]
    set d := b - a with hdd
    have hd0 : 0 < d := by omega
    have hd : d < 2 ^ 32 := by omega
    have hdsq : d * d < size64 := by
      calc d * d < 2 ^ 32 * (2 ^ 32) := Nat.mul_lt_mul_of_lt_of_lt hd hd
      _ = size64 := hsize
    have hexp : (size64 - d) * (size64 - d) = size64 * (size64 - 2 * d) + d * d := by
      have h2d : 2 * d ≤ size64 := by unfold size64; omega
      have hds : d ≤ size64 := by omega
      zify [h2d, hds]
      ring
    unfold mulWrap
    rw [hexp, Nat.mul_add_mod, Nat.mod_eq_of_lt hdsq]
    have hcast : ((d : Nat) : Rat) = (b : Rat) - (a : Rat) := by
      rw [hdd, Nat.cast_sub (le_of_lt hba)]
    push_cast
    rw [hcast]
    ring

/-- C1: for valid, pixel-distinct nodes A and B, the edge penalty is
infinite when the edge does not exist, and otherwise equals the spec
formula: the data terms divided by the 4-adjacent in-grid neighborhood
sizes, plus alpha times the true squared disparity difference (the
left-image width is bounded by a machine half-word, so the size_t wrap
is exact). -/
theorem penalty_spec_formula (g : DisparityGraph) (nodeA nodeB : DisparityNode)
    (hA : checkNodeB g nodeA = true) (hB : checkNodeB g nodeB = true)
    (hbound : g.leftImage.cols ≤ 2 ^ 32) :
    (edgeExists nodeA nodeB = false → penalty g nodeA nodeB = ⊤)
    ∧ (edgeExists nodeA nodeB = true →
        penalty g nodeA nodeB =
          ((specNodeDataTerm g nodeA / (specNeighborsCount g nodeA : Rat)
            + specNodeDataTerm g nodeB / (specNeighborsCount g nodeB : Rat)
            + g.consistency
              * ((nodeA.disparity : Rat) - (nodeB.disparity : Rat)) ^ 2 : Rat)
            : WithTop Rat)) := by
  simp only [checkNodeB, Bool.and_eq_true, decide_eq_true_eq] at hA hB
  constructor
  · intro h
    simp [penalty, h]
  · intro h
    have hdA : nodeA.disparity < 2 ^ 32 := by omega
    have hdB : nodeB.disparity < 2 ^ 32 := by omega
    have hq : ∀ n : DisparityNode, nodePenalty g n = specNodeDataTerm g n := by
      intro n
      unfold nodePenalty specNodeDataTerm
      push_cast
      ring
    unfold penalty
    rw [h]
    simp only [Bool.true_eq_false, if_false]
    rw [hq, hq, mulWrap_subWrap_sq hdA hdB,
      nodeNeighborsCount_eq_spec g nodeA hA.1.1 hA.1.2,
      nodeNeighborsCount_eq_spec g nodeB hB.1.1 hB.1.2]

/-- C1 witness: concrete evaluation on the EdgesPenalty fixture
(10 by 10 images, right(0,0)=9, right(0,1)=8, left(0,0)=4, left(0,2)=5,
alpha = 1). -/
def leftImgEx : Img :=
  ⟨10, 10, fun r c => if r = 0 ∧ c = 0 then 4 else if r = 0 ∧ c = 2 then 5 else 0⟩

/-- Right image of the EdgesPenalty fixture. -/
def rightImgEx : Img :=
  ⟨10, 10, fun r c => if r = 0 ∧ c = 0 then 9 else if r = 0 ∧ c = 1 then 8 else 0⟩

/-- The EdgesPenalty fixture graph. -/
def graphEx : DisparityGraph := ⟨leftImgEx, rightImgEx, 1⟩

theorem penalty_spec_formula_witness :
    penalty graphEx ⟨0, 0, 0⟩ ⟨0, 1, 1⟩ =
      ((specNodeDataTerm graphEx ⟨0, 0, 0⟩ / (specNeighborsCount graphEx ⟨0, 0, 0⟩ : Rat)
        + specNodeDataTerm graphEx ⟨0, 1, 1⟩ / (specNeighborsCount graphEx ⟨0, 1, 1⟩ : Rat)
        + graphEx.consistency * (((0 : Nat) : Rat) - ((1 : Nat) : Rat)) ^ 2 : Rat)
        : WithTop Rat) :=
  (penalty_spec_formula graphEx ⟨0, 0, 0⟩ ⟨0, 1, 1⟩ (by decide) (by decide)
    (by decide)).2 (by decide)

/-- Spec-side edge feasibility: 4-adjacency (L1 distance one) plus the
left-to-right ordering constraint on horizontally adjacent nodes, in
both orientations; vertical adjacency imposes no disparity relation. -/
def specEdgeFeasible (nodeA nodeB : DisparityNode) : Prop :=
  (((nodeA.row : Int) - nodeB.row).natAbs
    + ((nodeA.column : Int) - nodeB.column).natAbs = 1)
  ∧ (nodeA.row = nodeB.row → nodeA.column < nodeB.column →
      nodeA.column + nodeA.disparity ≤ nodeB.column + nodeB.disparity)
  ∧ (nodeA.row = nodeB.row → nodeB.column < nodeA.column →
      nodeB.column + nodeB.disparity ≤ nodeA.column + nodeA.disparity)

lemma edgeExists_iff (nodeA nodeB : DisparityNode)
    (hAB : nodeA.row ≠ nodeB.row ∨ nodeA.column ≠ nodeB.column) :
    edgeExists nodeA nodeB = true ↔ specEdgeFeasible nodeA nodeB := by
  unfold edgeExists specEdgeFeasible
  dsimp only
  split_ifs <;>
    simp only [Bool.false_eq_true, false_iff, true_iff] <;>
      (try push_neg) <;> omega

lemma edgeExists_symm (nodeA nodeB : DisparityNode) :
    edgeExists nodeA nodeB = edgeExists nodeB nodeA := by
  by_cases hpix : nodeA.row = nodeB.row ∧ nodeA.column = nodeB.column
  · unfold edgeExists
    simp [hpix.1, hpix.2]
  · have hd : nodeA.row ≠ nodeB.row ∨ nodeA.column ≠ nodeB.column := by tauto
    have hd2 : nodeB.row ≠ nodeA.row ∨ nodeB.column ≠ nodeA.column := by tauto
    have h1 := edgeExists_iff nodeA nodeB hd
    have h2 := edgeExists_iff nodeB nodeA hd2
    have hiff : specEdgeFeasible nodeA nodeB ↔ specEdgeFeasible nodeB nodeA := by
      unfold specEdgeFeasible
      constructor <;> rintro ⟨x, y, z⟩ <;>
        exact ⟨by omega, fun hr hc => z hr.symm hc, fun hr hc => y hr.symm hc⟩
    by_cases hab : edgeExists nodeA nodeB = true
    · rw [hab, (h2.mpr (hiff.mp (h1.mp hab))).symm]
    · have hba : ¬ edgeExists nodeB nodeA = true := fun h =>
        hab (h1.mpr (hiff.mpr (h2.mp h)))
      rw [Bool.not_eq_true] at hab hba
      rw [hab, hba]

/-- C2: for distinct valid nodes, edgeExists holds exactly when the
nodes are 4-adjacent and, for horizontally adjacent nodes read left to
right, the ordering constraint col + disparity is monotone holds;
vertically adjacent nodes are connected regardless of disparities. -/
theorem edgeExists_characterization (g : DisparityGraph)
    (nodeA nodeB : DisparityNode)
    (_hA : checkNodeB g nodeA = true) (_hB : checkNodeB g nodeB = true)
    (hAB : nodeA.row ≠ nodeB.row ∨ nodeA.column ≠ nodeB.column) :
    edgeExists nodeA nodeB = true ↔ specEdgeFeasible nodeA nodeB :=
  edgeExists_iff nodeA nodeB hAB

theorem edgeExists_characterization_witness :
    (edgeExists ⟨0, 5, 2⟩ ⟨0, 6, 3⟩ = true ↔ specEdgeFeasible ⟨0, 5, 2⟩ ⟨0, 6, 3⟩)
    ∧ edgeExists ⟨0, 5, 2⟩ ⟨0, 6, 3⟩ = true :=
  ⟨edgeExists_characterization graphEx ⟨0, 5, 2⟩ ⟨0, 6, 3⟩
      (by decide) (by decide) (by decide),
    by decide⟩

/-- C8: the edge penalty is symmetric in its two nodes, and the
size_t-wrapped square of the disparity difference that it uses equals
the true squared difference whenever the left-image width (which bounds
all disparities) fits in 32 bits. -/
theorem penalty_symmetric (g : DisparityGraph) (nodeA nodeB : DisparityNode)
    (hA : checkNodeB g nodeA = true) (hB : checkNodeB g nodeB = true)
    (hw : g.leftImage.cols ≤ 2 ^ 32) :
    penalty g nodeA nodeB = penalty g nodeB nodeA
    ∧ ((mulWrap (subWrap nodeA.disparity nodeB.disparity)
        (subWrap nodeA.disparity nodeB.disparity) : Nat) : Rat)
      = ((nodeA.disparity : Rat) - (nodeB.disparity : Rat)) ^ 2 := by
  simp only [checkNodeB, Bool.and_eq_true, decide_eq_true_eq] at hA hB
  have hdA : nodeA.disparity < 2 ^ 32 := by omega
  have hdB : nodeB.disparity < 2 ^ 32 := by omega
  refine ⟨?_, mulWrap_subWrap_sq hdA hdB⟩
  unfold penalty
  rw [← edgeExists_symm nodeA nodeB]
  split_ifs with h
  · rfl
  · rw [mulWrap_subWrap_sq hdA hdB, mulWrap_subWrap_sq hdB hdA]
    have harg : nodePenalty g nodeA / (nodeNeighborsCount g nodeA false : Rat)
          + nodePenalty g nodeB / (nodeNeighborsCount g nodeB false : Rat)
          + g.consistency * ((nodeA.disparity : Rat) - (nodeB.disparity : Rat)) ^ 2
        = nodePenalty g nodeB / (nodeNeighborsCount g nodeB false : Rat)
          + nodePenalty g nodeA / (nodeNeighborsCount g nodeA false : Rat)
          + g.consistency * ((nodeB.disparity : Rat) - (nodeA.disparity : Rat)) ^ 2 := by
      ring
    dsimp only
    rw [harg]

theorem penalty_symmetric_witness :
    penalty graphEx ⟨0, 0, 0⟩ ⟨0, 1, 1⟩ = penalty graphEx ⟨0, 1, 1⟩ ⟨0, 0, 0⟩
    ∧ ((mulWrap (subWrap 0 1) (subWrap 0 1) : Nat) : Rat)
      = (((0 : Nat) : Rat) - ((1 : Nat) : Rat)) ^ 2 :=
  penalty_symmetric graphEx ⟨0, 0, 0⟩ ⟨0, 1, 1⟩ (by decide) (by decide) (by decide)

/-- DiffusionDisparityFinder::find threshold: the source computes
1 / (2 * columns * rows * 4) where every operand is an integer, so the
division is integer division; the quotient is converted to double only
afterwards. -/
def diffusionThreshold (rows cols : Nat) : Rat :=
  ((1 / (2 * cols * rows * 4) : Nat) : Rat)

/-- The threshold value the spec prescribes: 1 / (8 R C). -/
def specThreshold (rows cols : Nat) : Rat :=
  1 / (8 * (rows : Rat) * (cols : Rat))

/-- C5 (code bug): for every non-empty image the source threshold is
exactly zero because of integer division, while the spec value
1 / (8 R C) is strictly positive; the two never agree. -/
theorem diffusionThreshold_integer_division (rows cols : Nat)
    (hr : 1 ≤ rows) (hc : 1 ≤ cols) :
    diffusionThreshold rows cols = 0
    ∧ 0 < specThreshold rows cols
    ∧ diffusionThreshold rows cols ≠ specThreshold rows cols := by
  have h8 : 2 ≤ 2 * cols * rows * 4 := by nlinarith
  have hz : (1 / (2 * cols * rows * 4) : Nat) = 0 := Nat.div_eq_of_lt (by omega)
  have hzero : diffusionThreshold rows cols = 0 := by
    unfold diffusionThreshold
    rw [hz]
    norm_num
  have hpos : 0 < specThreshold rows cols := by
    unfold specThreshold
    have hrp : (0 : Rat) < rows := by exact_mod_cast hr
    have hcp : (0 : Rat) < cols := by exact_mod_cast hc
    positivity
  exact ⟨hzero, hpos, by rw [hzero]; exact fun h => absurd h.symm (ne_of_gt hpos)⟩

theorem diffusionThreshold_integer_division_witness :
    diffusionThreshold 3 3 = 0
    ∧ 0 < specThreshold 3 3
    ∧ diffusionThreshold 3 3 ≠ specThreshold 3 3 :=
  diffusionThreshold_integer_division 3 3 (by decide) (by decide)

/-- The Matrix of matrix.hpp: a vector of row vectors with cached row
and column counts. -/
structure Matrix where
  rows_ : Nat
  columns_ : Nat
  data_ : List (List Int)

/-- Matrix::Matrix(rows, columns): every row is value-initialized to
zeros. -/
def matrixNew (rows columns : Nat) : Matrix :=
  ⟨rows, columns, List.replicate rows (List.replicate columns 0)⟩

/-- A matrix whose storage is consistent with its cached sizes (true of
every matrix the constructor can build). -/
def matrixWF (m : Matrix) : Prop :=
  m.data_.length = m.rows_ ∧ ∀ row ∈ m.data_, row.length = m.columns_

/-- The source's indexed read: Matrix::operator[] forwards the row
index to std::vector::operator[] and the element access forwards the
column index likewise; neither performs any range check and neither can
throw.  The Except layer is the thrown-exception channel (always ok
here, because the source contains no check and no throw); the Option
layer is definedness: an out-of-range std::vector::operator[] access
has no defined result. -/
def matrixRead (m : Matrix) (r c : Nat) : Except String (Option Int) :=
  Except.ok ((m.data_.get? r).bind fun row => row.get? c)

/-- Modelled from the spec: the bounds-checked read (get(r,c), with an
out-of-range read surfaced as a fatal user-visible error) that section
4.1 of the design prescribes; matrix.hpp does not implement it. -/
def matrixGetChecked (m : Matrix) (r c : Nat) : Except String Int :=
  if r < m.rows_ ∧ c < m.columns_ then
    Except.ok (((m.data_.get? r).bind fun row => row.get? c).getD 0)
  else
    Except.error "Index out of range."

/-- C9 counterexample: the out-of-range read (5,5) of a 1-by-1 matrix
raises no error at all (the claim says it is a fatal user-visible
error); the spec-modelled checked read does raise one. -/
theorem matrixRead_unchecked_counterexample :
    (¬ ∃ msg, matrixRead (matrixNew 1 1) 5 5 = Except.error msg)
    ∧ matrixRead (matrixNew 1 1) 5 5 = Except.ok none
    ∧ matrixGetChecked (matrixNew 1 1) 5 5 = Except.error "Index out of range." := by
  refine ⟨?_, by rfl, by rfl⟩
  rintro ⟨msg, hmsg⟩
  rw [show matrixRead (matrixNew 1 1) 5 5 = Except.ok none from rfl] at hmsg
  exact Except.noConfusion hmsg

/-- C9 amended: indexed reads of a Matrix are not bounds-checked: an
in-range read returns the stored element and an out-of-range read is an
unchecked access with no defined result; no read ever produces an
error. -/
theorem matrixRead_total (m : Matrix) (r c : Nat) (hwf : matrixWF m) :
    (r < m.rows_ ∧ c < m.columns_ → ∃ v, matrixRead m r c = Except.ok (some v))
    ∧ (¬ (r < m.rows_ ∧ c < m.columns_) → matrixRead m r c = Except.ok none)
    ∧ (¬ ∃ msg, matrixRead m r c = Except.error msg) := by
  obtain ⟨hlen, hrow⟩ := hwf
  refine ⟨?_, ?_, ?_⟩
  · rintro ⟨hr, hc⟩
    have hr2 : r < m.data_.length := by omega
    have hget : m.data_.get? r = some (m.data_.get ⟨r, hr2⟩) := List.get?_eq_get hr2
    have hmem : m.data_.get ⟨r, hr2⟩ ∈ m.data_ := List.get_mem _ _ _
    have hc2 : c < (m.data_.get ⟨r, hr2⟩).length := by rw [hrow _ hmem]; omega
    refine ⟨(m.data_.get ⟨r, hr2⟩).get ⟨c, hc2⟩, ?_⟩
    unfold matrixRead
    rw [hget]
    simp [List.get?_eq_get hc2]
  · intro hout
    unfold matrixRead
    rcases Decidable.not_and_iff_or_not.mp hout with hr | hc
    · have : m.data_.get? r = none := by
        rw [List.get?_eq_none]
        omega
      rw [this]
      rfl
    · rcases Nat.lt_or_ge r m.data_.length with hr2 | hr2
      · have hget : m.data_.get? r = some (m.data_.get ⟨r, hr2⟩) :=
          List.get?_eq_get hr2
        have hmem : m.data_.get ⟨r, hr2⟩ ∈ m.data_ := List.get_mem _ _ _
        have : (m.data_.get ⟨r, hr2⟩).get? c = none := by
          rw [List.get?_eq_none, hrow _ hmem]
          omega
        rw [hget]
        simp only [Option.some_bind]
        rw [this]
      · have : m.data_.get? r = none := by
          rw [List.get?_eq_none]
          omega
        rw [this]
        rfl
  · rintro ⟨msg, hmsg⟩
    unfold matrixRead at hmsg
    exact Except.noConfusion hmsg

theorem matrixRead_total_witness :
    ((1 : Nat) < (matrixNew 2 3).rows_ ∧ (2 : Nat) < (matrixNew 2 3).columns_ →
      ∃ v, matrixRead (matrixNew 2 3) 1 2 = Except.ok (some v))
    ∧ (¬ ((1 : Nat) < (matrixNew 2 3).rows_ ∧ (2 : Nat) < (matrixNew 2 3).columns_) →
        matrixRead (matrixNew 2 3) 1 2 = Except.ok none)
    ∧ (¬ ∃ msg, matrixRead (matrixNew 2 3) 1 2 = Except.error msg) :=
  matrixRead_total (matrixNew 2 3) 1 2 (by constructor <;> decide)

/-- DisparityGraph::neighborDisparities (part_007): the neighbor's
disparity is reset to zero first, then the admissible labels are
enumerated per branch; every loop bound uses the right image's column
count. -/
def neighborDisparities (g : DisparityGraph) (node neighbor0 : DisparityNode) :
    List Nat :=
  let columns := g.rightImage.cols
  let neighbor : DisparityNode := { neighbor0 with disparity := 0 }
  if node.row ≠ neighbor.row ∧ edgeExists node neighbor = false then
    []
  else if node.row ≠ neighbor.row then
    List.range (columns - neighbor.column)
  else if node.row = neighbor.row ∧ node.column = neighbor.column + 1 then
    List.range (node.disparity + 2)
  else if node.row = neighbor.row ∧ node.column + 1 = neighbor.column then
    let start := if neighbor.disparity = 0 then 0 else neighbor.disparity - 1
    List.range' start (columns - neighbor.column - start)
  else
    []

/-- The label set the claim asserts for a right horizontal neighbor:
the interval from 0 below t.disparity+2 intersected with the interval
of disparities that stay inside the left image. -/
def specRightNeighborDisparities (g : DisparityGraph)
    (node neighbor : DisparityNode) : List Nat :=
  List.range (min (node.disparity + 2) (g.leftImage.cols - neighbor.column))

/-- A 10 by 10 all-zero pair of images, as in the GetNeighborDisparities
unit test. -/
def graphZero10 : DisparityGraph :=
  ⟨⟨10, 10, fun _ _ => 0⟩, ⟨10, 10, fun _ _ => 0⟩, 1⟩

/-- C6 counterexample: on 10-by-10 images, the admissible labels that
the source returns for node (4,2) with disparity 2 and its right
neighbor (4,3) are 0..6 — seven labels independent of the node's
disparity — not the four labels 0..3 the claim's formula gives. -/
theorem neighborDisparities_right_counterexample :
    neighborDisparities graphZero10 ⟨4, 2, 2⟩ ⟨4, 3, 0⟩ = [0, 1, 2, 3, 4, 5, 6]
    ∧ specRightNeighborDisparities graphZero10 ⟨4, 2, 2⟩ ⟨4, 3, 0⟩ = [0, 1, 2, 3]
    ∧ neighborDisparities graphZero10 ⟨4, 2, 2⟩ ⟨4, 3, 0⟩
        ≠ specRightNeighborDisparities graphZero10 ⟨4, 2, 2⟩ ⟨4, 3, 0⟩ := by
  refine ⟨by decide, by decide, by decide⟩

/-- C6 amended: for a valid node t and its right horizontal neighbor
t' = (t.row, t.col+1), neighborDisparities returns exactly the strictly
increasing sequence of labels below C_R - t'.col, where C_R is the
right image's column count: the lower bound is always 0 (the neighbor's
disparity is zeroed before the bound is computed) and the upper bound
uses the right image's width, independent of t.disparity. -/
theorem neighborDisparities_right (g : DisparityGraph)
    (node neighbor : DisparityNode)
    (hrow : neighbor.row = node.row)
    (hcol : neighbor.column = node.column + 1) :
    neighborDisparities g node neighbor =
      List.range (g.rightImage.cols - neighbor.column) := by
  unfold neighborDisparities
  dsimp only
  rw [if_neg (by simp [hrow]), if_neg (by simp [hrow]),
    if_neg (by simp [hrow, hcol]; omega), if_pos (by simp [hrow, hcol])]
  simp only [if_pos rfl]
  rw [if_pos trivial, Nat.sub_zero, List.range_eq_range']

theorem neighborDisparities_right_amended_witness :
    neighborDisparities graphZero10 ⟨4, 2, 2⟩ ⟨4, 3, 0⟩ =
      List.range (graphZero10.rightImage.cols - 3) :=
  neighborDisparities_right graphZero10 ⟨4, 2, 2⟩ ⟨4, 3, 0⟩ rfl rfl

/-- DisparityGraph::nodeNeighbors: zero-disparity neighbor nodes, in
the order right, down, then (when not directed) left, up. -/
def nodeNeighbors (g : DisparityGraph) (node : DisparityNode)
    (directed : Bool) : List DisparityNode :=
  ((if node.column < g.rightImage.cols - 1
      then [⟨node.row, node.column + 1, 0⟩] else [])
    ++ (if node.row < g.rightImage.rows - 1
      then [⟨node.row + 1, node.column, 0⟩] else []))
  ++ (if directed then []
      else
        (if 0 < node.column then [⟨node.row, node.column - 1, 0⟩] else [])
        ++ (if 0 < node.row then [⟨node.row - 1, node.column, 0⟩] else []))

/-- DisparityGraph::availableNodes: all pixels with zero disparity, in
row-major order. -/
def availableNodes (g : DisparityGraph) : List DisparityNode :=
  (List.range g.rightImage.rows).flatMap fun row =>
    (List.range g.rightImage.cols).map fun column => ⟨row, column, 0⟩

/-- The row-major storage index of a node, as used by
Labeling::nodeIterator_. -/
def nodeIndex (g : DisparityGraph) (node : DisparityNode) : Nat :=
  node.row * g.rightImage.cols + node.column

/-- The Labeling state: the stored node assignment plus the cached
penalty (infinity marks an invalid cache, as in the source). -/
structure Labeling where
  nodes : List DisparityNode
  penaltyCache : WithTop Rat

/-- Labeling::Labeling(graph): nodes from availableNodes, cache
initialized to infinity. -/
def labelingNew (g : DisparityGraph) : Labeling :=
  ⟨availableNodes g, ⊤⟩

/-- Dereference of Labeling::nodeIterator_ (in-range for well-formed
labelings). -/
def labNode (g : DisparityGraph) (lab : Labeling) (node : DisparityNode) :
    DisparityNode :=
  lab.nodes.getD (nodeIndex g node) default

/-- Labeling::disparity. -/
def labDisparity (g : DisparityGraph) (lab : Labeling)
    (node : DisparityNode) : Nat :=
  (labNode g lab node).disparity

/-- Labeling::neighbors: the graph's neighbor pixels carrying their
current labels. -/
def labNeighbors (g : DisparityGraph) (lab : Labeling) (node : DisparityNode)
    (directed : Bool) : List DisparityNode :=
  (nodeNeighbors g node directed).map fun nb => labNode g lab nb

/-- Labeling::nodeDisparities: the neighbor lists are poured into a
multiset (modelled by the concatenation, walked in sorted order) and a
label is kept when its total count equals the number of neighbors. -/
def labNodeDisparities (g : DisparityGraph) (lab : Labeling)
    (node : DisparityNode) : List Nat :=
  let neighbors := labNeighbors g lab node false
  let disparities := neighbors.flatMap fun nb => neighborDisparities g nb node
  if disparities = [] then []
  else
    (disparities.mergeSort.dedup).filter fun k =>
      disparities.count k = neighbors.length

/-- Labeling::setNode as an explicit state transformer: the first
component is the thrown-exception channel, the second the resulting
labeling state (unchanged whenever a throw occurs). -/
def setNodeSt (g : DisparityGraph) (lab : Labeling) (node : DisparityNode) :
    Except String Unit × Labeling :=
  if g.rightImage.rows ≤ node.row then
    (Except.error "Row should not be greater than the last one.", lab)
  else if g.rightImage.cols ≤ node.column then
    (Except.error "Column should not be greater than the last one.", lab)
  else if g.leftImage.cols ≤ node.column + node.disparity then
    (Except.error "Disparity should not lead to image overflow.", lab)
  else if node.disparity ∈ labNodeDisparities g lab node then
    (Except.ok (), ⟨lab.nodes.set (nodeIndex g node) node, ⊤⟩)
  else
    (Except.error "Provided disparity is not available.", lab)

/-- A labeling is well-formed for a graph when it stores one node per
pixel at its row-major index. -/
def labWF (g : DisparityGraph) (lab : Labeling) : Bool :=
  decide (lab.nodes.length = g.rightImage.rows * g.rightImage.cols) &&
  (List.range g.rightImage.rows).all fun r =>
    (List.range g.rightImage.cols).all fun c =>
      let n := lab.nodes.getD (r * g.rightImage.cols + c) default
      decide (n.row = r) && decide (n.column = c)

lemma neighborDisparities_nodup (g : DisparityGraph)
    (node nb : DisparityNode) : (neighborDisparities g node nb).Nodup := by
  unfold neighborDisparities
  dsimp only
  split_ifs <;> first
    | exact List.nodup_nil
    | apply List.nodup_range
    | (apply List.nodup_range' <;> decide)

lemma count_flatMap_le_length {α : Type} (l : List α)
    (f : α → List Nat) (k : Nat) (h : ∀ x ∈ l, (f x).Nodup) :
    List.count k (l.flatMap f) ≤ l.length := by
  induction l with
  | nil => simp
  | cons x xs ih =>
    rw [List.flatMap_cons, List.count_append]
    have h1 : List.count k (f x) ≤ 1 :=
      List.nodup_iff_count_le_one.mp (h x (by simp)) k
    have h2 : List.count k (xs.flatMap f) ≤ xs.length :=
      ih fun y hy => h y (by simp [hy])
    simp only [List.length_cons]
    omega

lemma count_flatMap_eq_length_iff {α : Type} (l : List α)
    (f : α → List Nat) (k : Nat) (h : ∀ x ∈ l, (f x).Nodup) :
    List.count k (l.flatMap f) = l.length ↔ ∀ x ∈ l, k ∈ f x := by
  induction l with
  | nil => simp
  | cons x xs ih =>
    rw [List.flatMap_cons, List.count_append]
    have h1 : List.count k (f x) ≤ 1 :=
      List.nodup_iff_count_le_one.mp (h x (by simp)) k
    have h2 : List.count k (xs.flatMap f) ≤ xs.length :=
      count_flatMap_le_length xs f k fun y hy => h y (by simp [hy])
    have ihx := ih fun y hy => h y (by simp [hy])
    constructor
    · intro hsum y hy
      have hx1 : List.count k (f x) = 1 ∧
          List.count k (xs.flatMap f) = xs.length := by
        simp only [List.length_cons] at hsum
        omega
      rcases List.mem_cons.mp hy with rfl | hy2
      · exact List.count_pos_iff.mp (by omega)
      · exact (ihx.mp hx1.2) y hy2
    · intro hall
      have hx1 : List.count k (f x) = 1 :=
        List.count_eq_one_of_mem (h x (by simp)) (hall x (by simp))
      have hx2 : List.count k (xs.flatMap f) = xs.length :=
        ihx.mpr fun y hy => hall y (by simp [hy])
      simp only [List.length_cons]
      omega

lemma labNodeDisparities_mem_iff (g : DisparityGraph) (lab : Labeling)
    (node : DisparityNode) (k : Nat)
    (hne : labNeighbors g lab node false ≠ []) :
    k ∈ labNodeDisparities g lab node ↔
      ∀ nb ∈ labNeighbors g lab node false,
        k ∈ neighborDisparities g nb node := by
  unfold labNodeDisparities
  dsimp only
  set neighbors := labNeighbors g lab node false with hnbs
  set disparities := neighbors.flatMap
    (fun nb => neighborDisparities g nb node) with hds
  have hcount := count_flatMap_eq_length_iff neighbors
    (fun nb => neighborDisparities g nb node) k
    (fun x _ => neighborDisparities_nodup g x node)
  by_cases hemp : disparities = []
  · rw [if_pos hemp]
    simp only [List.not_mem_nil, false_iff, not_forall]
    obtain ⟨nb, hnb⟩ := List.exists_mem_of_ne_nil neighbors hne
    refine ⟨nb, hnb, fun hmem => ?_⟩
    have : k ∈ disparities := by
      rw [hds]
      exact List.mem_flatMap_of_mem hnb hmem
    rw [hemp] at this
    exact List.not_mem_nil k this
  · rw [if_neg hemp]
    rw [List.mem_filter]
    constructor
    · rintro ⟨_, hcnt⟩
      exact hcount.mp (by exact_mod_cast of_decide_eq_true hcnt)
    · intro hall
      have hcnt : List.count k disparities = neighbors.length :=
        hcount.mpr hall
      refine ⟨?_, by simp [hcnt]⟩
      rw [List.mem_dedup, List.mem_mergeSort]
      have : 0 < List.count k disparities := by
        rw [hcnt]
        cases hn : neighbors with
        | nil => exact absurd hn hne
        | cons a l => simp
      exact List.count_pos_iff.mp this

lemma getD_set_self {α : Type} [Inhabited α] (l : List α) (i : Nat) (a : α)
    (h : i < l.length) : (l.set i a).getD i default = a := by
  rw [List.getD_eq_getElem?_getD, List.getElem?_set_self (by simpa using h)]
  rfl

lemma labNeighbors_ne_nil (g : DisparityGraph) (lab : Labeling)
    (node : DisparityNode)
    (hrow : node.row < g.rightImage.rows)
    (hcol : node.column < g.rightImage.cols)
    (hgrid : 2 ≤ g.rightImage.rows * g.rightImage.cols) :
    labNeighbors g lab node false ≠ [] := by
  unfold labNeighbors
  intro hnil
  rw [List.map_eq_nil_iff] at hnil
  have hlen := congrArg List.length hnil
  unfold nodeNeighbors at hlen
  simp only [List.length_append, List.length_nil, apply_ite List.length,
    List.length_cons, Bool.false_eq_true, if_false] at hlen
  have hor : 2 ≤ g.rightImage.rows ∨ 2 ≤ g.rightImage.cols := by
    by_contra hcon
    push_neg at hcon
    have hle : g.rightImage.rows * g.rightImage.cols ≤ 1 * 1 :=
      Nat.mul_le_mul (by omega) (by omega)
    omega
  split_ifs at hlen <;> omega

/-- C7 counterexample: on a single-pixel right image the node (0,0) has
no neighbors, so every label is vacuously common to all neighbor label
sets, yet setNode rejects disparity 0 with the recoverable error: the
claimed iff fails for isolated nodes. -/
def graphSingle : DisparityGraph :=
  ⟨⟨1, 2, fun _ _ => 0⟩, ⟨1, 1, fun _ _ => 0⟩, 1⟩

theorem setNode_isolated_counterexample :
    labNeighbors graphSingle (labelingNew graphSingle) ⟨0, 0, 0⟩ false = []
    ∧ checkNodeB graphSingle ⟨0, 0, 0⟩ = true
    ∧ (setNodeSt graphSingle (labelingNew graphSingle) ⟨0, 0, 0⟩).1
        = Except.error "Provided disparity is not available." := by
  refine ⟨by rfl, by rfl, by rfl⟩

/-- C7 amended: for a valid node t of a well-formed labeling, setNode
throws the recoverable error exactly when t.disparity is not in the
computed nodeDisparities list; on a grid with at least two pixels that
list contains exactly the labels common to every neighbor's
neighborDisparities set under the neighbors' current labels (an
isolated node, excluded here, always gets the empty list and is always
rejected); any throw leaves the stored assignment and the cached
penalty unchanged, and success stores the new label and invalidates the
energy cache. -/
theorem setNode_spec (g : DisparityGraph) (lab : Labeling)
    (node : DisparityNode)
    (hv : checkNodeB g node = true) (hwf : labWF g lab = true) :
    ((setNodeSt g lab node).1
        = Except.error "Provided disparity is not available."
      ↔ node.disparity ∉ labNodeDisparities g lab node)
    ∧ (2 ≤ g.rightImage.rows * g.rightImage.cols →
        (node.disparity ∈ labNodeDisparities g lab node ↔
          ∀ nb ∈ labNeighbors g lab node false,
            node.disparity ∈ neighborDisparities g nb node))
    ∧ (node.disparity ∉ labNodeDisparities g lab node →
        (setNodeSt g lab node).2 = lab)
    ∧ (node.disparity ∈ labNodeDisparities g lab node →
        (setNodeSt g lab node).1 = Except.ok ()
        ∧ labDisparity g (setNodeSt g lab node).2 node = node.disparity
        ∧ (setNodeSt g lab node).2.penaltyCache = ⊤) := by
  simp only [checkNodeB, Bool.and_eq_true, decide_eq_true_eq] at hv
  obtain ⟨⟨hrow, hcol⟩, hdisp⟩ := hv
  simp only [labWF, Bool.and_eq_true, decide_eq_true_eq] at hwf
  have hlen : lab.nodes.length = g.rightImage.rows * g.rightImage.cols := hwf.1
  have hsets : setNodeSt g lab node =
      if node.disparity ∈ labNodeDisparities g lab node then
        (Except.ok (), ⟨lab.nodes.set (nodeIndex g node) node, ⊤⟩)
      else
        (Except.error "Provided disparity is not available.", lab) := by
    unfold setNodeSt
    rw [if_neg (by omega), if_neg (by omega), if_neg (by omega)]
  refine ⟨?_, ?_, ?_, ?_⟩
  · rw [hsets]
    split_ifs with hmem
    · exact ⟨fun h => h.elim, fun hn => absurd hmem hn⟩
    · exact ⟨fun _ => hmem, fun _ => rfl⟩
  · intro hgrid
    exact labNodeDisparities_mem_iff g lab node node.disparity
      (labNeighbors_ne_nil g lab node hrow hcol hgrid)
  · intro hmem
    rw [hsets, if_neg hmem]
  · intro hmem
    rw [hsets, if_pos hmem]
    refine ⟨rfl, ?_, rfl⟩
    unfold labDisparity labNode
    have hidx : nodeIndex g node < lab.nodes.length := by
      unfold nodeIndex
      rw [hlen]
      calc node.row * g.rightImage.cols + node.column
          < node.row * g.rightImage.cols + g.rightImage.cols := by omega
        _ = (node.row + 1) * g.rightImage.cols := by ring
        _ ≤ g.rightImage.rows * g.rightImage.cols :=
            Nat.mul_le_mul_right _ (by omega)
    rw [getD_set_self lab.nodes (nodeIndex g node) node hidx]

theorem setNode_spec_witness :
    ((setNodeSt graphZero10 (labelingNew graphZero10) ⟨0, 0, 1⟩).1
        = Except.error "Provided disparity is not available."
      ↔ (1 : Nat) ∉ labNodeDisparities graphZero10 (labelingNew graphZero10) ⟨0, 0, 1⟩)
    ∧ (2 ≤ graphZero10.rightImage.rows * graphZero10.rightImage.cols →
        ((1 : Nat) ∈ labNodeDisparities graphZero10 (labelingNew graphZero10) ⟨0, 0, 1⟩ ↔
          ∀ nb ∈ labNeighbors graphZero10 (labelingNew graphZero10) ⟨0, 0, 1⟩ false,
            (1 : Nat) ∈ neighborDisparities graphZero10 nb ⟨0, 0, 1⟩))
    ∧ ((1 : Nat) ∉ labNodeDisparities graphZero10 (labelingNew graphZero10) ⟨0, 0, 1⟩ →
        (setNodeSt graphZero10 (labelingNew graphZero10) ⟨0, 0, 1⟩).2
          = labelingNew graphZero10)
    ∧ ((1 : Nat) ∈ labNodeDisparities graphZero10 (labelingNew graphZero10) ⟨0, 0, 1⟩ →
        (setNodeSt graphZero10 (labelingNew graphZero10) ⟨0, 0, 1⟩).1 = Except.ok ()
        ∧ labDisparity graphZero10
            (setNodeSt graphZero10 (labelingNew graphZero10) ⟨0, 0, 1⟩).2 ⟨0, 0, 1⟩ = 1
        ∧ (setNodeSt graphZero10 (labelingNew graphZero10) ⟨0, 0, 1⟩).2.penaltyCache = ⊤) :=
  setNode_spec graphZero10 (labelingNew graphZero10) ⟨0, 0, 1⟩
    (by decide) (by decide)

/-- Modelled from the spec: DisparityGraph::minDisparity.  The
diffusion-era disparity_graph.hpp (the version declaring minDisparity,
maxDisparity, minNeighborDisparity, maxNeighborDisparity and the
graph-level nodeDisparities that diffusion_disparity_finder.hpp and
boolean_graph.hpp call) is missing from the snapshot; section 4.2 of
the spec gives the label interval of a node as [0, C_L - col). -/
def minDisparity (_g : DisparityGraph) (_node : DisparityNode) : Nat := 0

/-- Modelled from the spec: DisparityGraph::maxDisparity — the
exclusive upper bound C_L - col of the node's label interval. -/
def maxDisparity (g : DisparityGraph) (node : DisparityNode) : Nat :=
  g.leftImage.cols - node.column

/-- Modelled from the spec: DisparityGraph::minNeighborDisparity — the
lower bound of the admissible labels of the neighbor, per the section
4.2 rules (vertical and right neighbors start at 0, a left neighbor at
max(0, disparity - 1)). -/
def minNeighborDisparity (_g : DisparityGraph)
    (node neighbor : DisparityNode) : Nat :=
  if node.row ≠ neighbor.row then 0
  else if neighbor.column = node.column + 1 then 0
  else if node.column = neighbor.column + 1 then node.disparity - 1
  else 0

/-- Modelled from the spec: DisparityGraph::maxNeighborDisparity — the
exclusive upper bound of the admissible labels of the neighbor per the
section 4.2 rules. -/
def maxNeighborDisparity (g : DisparityGraph)
    (node neighbor : DisparityNode) : Nat :=
  if node.row ≠ neighbor.row then g.leftImage.cols - neighbor.column
  else if neighbor.column = node.column + 1 then
    min (node.disparity + 2) (g.leftImage.cols - neighbor.column)
  else if node.column = neighbor.column + 1 then
    g.leftImage.cols - neighbor.column
  else 0

/-- Modelled from the spec: the graph-level nodeDisparities — all
labels of the node's interval [minDisparity, maxDisparity), in
increasing order. -/
def graphNodeDisparities (g : DisparityGraph) (node : DisparityNode) :
    List Nat :=
  List.range' (minDisparity g node)
    (maxDisparity g node - minDisparity g node)

/-- The passedPenalties_ message table of the diffusion finder: a
scalar per (node index, label, neighbor slot). -/
def Phi : Type := Nat → Nat → Nat → Rat

/-- A single-cell additive update of the message table. -/
def updatePhi (phi : Phi) (i d s : Nat) (change : Rat) : Phi :=
  fun i2 d2 s2 =>
    if i2 = i ∧ d2 = d ∧ s2 = s then phi i2 d2 s2 + change else phi i2 d2 s2

/-- The neighbor-slot arithmetic shared by passedPenalty_ and
changePassedPenalty_: the slot of the directed half-edge from node to
neighbor.  none models the assert(false) branch for non-axis-aligned
pairs. -/
def slotTo (node neighbor : DisparityNode) : Option Nat :=
  if neighbor.row ≤ node.row ∧ neighbor.column ≤ node.column then
    some (2 * (node.row - neighbor.row) + node.column - neighbor.column - 1)
  else if node.row ≤ neighbor.row ∧ node.column ≤ neighbor.column then
    some (2 * (neighbor.row - node.row) + neighbor.column - node.column + 1)
  else
    none

/-- DiffusionDisparityFinder::passedPenalty_: the stored penalty of the
edge between node and neighbor is the sum of the two directed half-edge
messages; both slot indices are computed from the same branch on the
relative position, as in the source. -/
def passedPenalty (g : DisparityGraph) (phi : Phi)
    (node neighbor : DisparityNode) : Option Rat :=
  if neighbor.row ≤ node.row ∧ neighbor.column ≤ node.column then
    some (phi (nodeIndex g node) node.disparity
        (2 * (node.row - neighbor.row) + node.column - neighbor.column - 1)
      + phi (nodeIndex g neighbor) neighbor.disparity
        (2 * (node.row - neighbor.row) + node.column - neighbor.column + 1))
  else if node.row ≤ neighbor.row ∧ node.column ≤ neighbor.column then
    some (phi (nodeIndex g node) node.disparity
        (2 * (neighbor.row - node.row) + neighbor.column - node.column + 1)
      + phi (nodeIndex g neighbor) neighbor.disparity
        (2 * (neighbor.row - node.row) + neighbor.column - node.column - 1))
  else
    none

/-- DiffusionDisparityFinder::changePassedPenalty_: adds change to the
message of the directed half-edge from node to neighbor. -/
def changePassedPenalty (g : DisparityGraph) (phi : Phi)
    (node neighbor : DisparityNode) (change : Rat) : Option Phi :=
  if neighbor.row ≤ node.row ∧ neighbor.column ≤ node.column then
    some (updatePhi phi (nodeIndex g node) node.disparity
      (2 * (node.row - neighbor.row) + node.column - neighbor.column - 1)
      change)
  else if node.row ≤ neighbor.row ∧ node.column ≤ neighbor.column then
    some (updatePhi phi (nodeIndex g node) node.disparity
      (2 * (neighbor.row - node.row) + neighbor.column - node.column + 1)
      change)
  else
    none

/-- The finite value of a WithTop rational, when there is one. -/
def finiteValue (x : WithTop Rat) : Option Rat :=
  if h : x = ⊤ then none else some (x.untop h)

/-- DiffusionDisparityFinder::minEdgePenalty_: the minimum over the
admissible neighbor labels of stored passed penalty plus raw edge
penalty; none models the asserts (every candidate must be finite and
the minimum itself must be finite, so an empty range also fails). -/
def minEdgePenalty (g : DisparityGraph) (phi : Phi)
    (node neighbor0 : DisparityNode) : Option Rat := do
  let lo := minNeighborDisparity g node neighbor0
  let hi := maxNeighborDisparity g node neighbor0
  let cands ← (List.range' lo (hi - lo)).mapM fun d => do
    let nb : DisparityNode := { neighbor0 with disparity := d }
    let pp ← passedPenalty g phi node nb
    let q ← finiteValue (penalty g node nb)
    pure (pp + q)
  match cands with
  | [] => none
  | c :: cs => some (cs.foldl min c)

/-- DiffusionDisparityFinder::processNode_: subtract from each
neighbor's message the minimal edge penalty toward that neighbor,
accumulating the average of the minima, then add the average to every
neighbor's message. -/
def processNode (g : DisparityGraph) (phi : Phi) (node : DisparityNode) :
    Option Phi := do
  let neighbors := nodeNeighbors g node false
  let acc1 ← neighbors.foldlM
    (fun (acc : Phi × Rat) nb => do
      let m ← minEdgePenalty g acc.1 node nb
      let phi2 ← changePassedPenalty g acc.1 node nb (-m)
      pure (phi2, acc.2 + m / (neighbors.length : Rat)))
    (phi, 0)
  neighbors.foldlM
    (fun (acc : Phi) nb => changePassedPenalty g acc node nb acc1.2)
    acc1.1

/-- The rational value of the stored passed penalty of an edge (the
slots are defined for every axis-aligned pair that occurs in an energy
sum). -/
def passedPenaltyQ (g : DisparityGraph) (phi : Phi)
    (nodeA nodeB : DisparityNode) : Rat :=
  (passedPenalty g phi nodeA nodeB).getD 0

/-- The rational value of the raw pairwise penalty (the true value on
every feasible edge). -/
def penaltyQ (g : DisparityGraph) (nodeA nodeB : DisparityNode) : Rat :=
  (penalty g nodeA nodeB).untop' 0

/-- The node a labeling function assigns at a pixel. -/
def nodeAt (lbl : Nat → Nat → Nat) (r c : Nat) : DisparityNode :=
  ⟨r, c, lbl r c⟩

/-- The reparametrized total energy of a labeling: the sum over every
undirected grid edge (enumerated once via directed forward neighbors)
of the stored passed penalty plus the raw pairwise penalty. -/
def reparamEnergy (g : DisparityGraph) (phi : Phi)
    (lbl : Nat → Nat → Nat) : Rat :=
  ((availableNodes g).map fun t =>
    ((nodeNeighbors g t true).map fun u =>
      passedPenaltyQ g phi (nodeAt lbl t.row t.column)
          (nodeAt lbl u.row u.column)
      + penaltyQ g (nodeAt lbl t.row t.column)
          (nodeAt lbl u.row u.column)).sum).sum

lemma sum_map_add {α : Type} (l : List α) (f g : α → Rat) :
    (l.map fun x => f x + g x).sum = (l.map f).sum + (l.map g).sum := by
  induction l with
  | nil => simp
  | cons x xs ih => simp [ih]; ring

lemma sum_map_sub {α : Type} (l : List α) (f g : α → Rat) :
    (l.map fun x => f x - g x).sum = (l.map f).sum - (l.map g).sum := by
  induction l with
  | nil => simp
  | cons x xs ih => simp [ih]; ring

lemma sum_map_congr {α : Type} {l : List α} {f g : α → Rat}
    (h : ∀ x ∈ l, f x = g x) : (l.map f).sum = (l.map g).sum := by
  rw [List.map_congr_left h]

lemma list_sum_comm {α β : Type} (l1 : List α) (l2 : List β)
    (f : α → β → Rat) :
    (l1.map fun x => (l2.map (f x)).sum).sum
      = (l2.map fun y => (l1.map fun x => f x y).sum).sum := by
  induction l1 with
  | nil => simp
  | cons x xs ih =>
    simp only [List.map_cons, List.sum_cons, ih, ← sum_map_add]

lemma list_sum_ite_eq (l : List Nat) (hl : l.Nodup) (a : Nat) (x : Rat)
    (ha : a ∈ l) :
    (l.map fun v => if v = a then x else 0).sum = x := by
  induction l with
  | nil => exact absurd ha (List.not_mem_nil a)
  | cons b bs ih =>
    rw [List.nodup_cons] at hl
    rcases List.mem_cons.mp ha with rfl | hmem
    · have hrest : (bs.map fun v => if v = a then x else 0).sum = 0 := by
        apply List.sum_eq_zero
        intro y hy
        rw [List.mem_map] at hy
        obtain ⟨v, hv, rfl⟩ := hy
        rw [if_neg]
        intro hva
        subst hva
        exact hl.1 hv
      simp [hrest]
    · have hb : b ≠ a := by
        intro hba
        subst hba
        exact hl.1 hmem
      simp [hb, ih hl.2 hmem]

lemma sum_map_div (l : List Rat) (c : Rat) :
    (l.map (· / c)).sum = l.sum / c := by
  induction l with
  | nil => simp
  | cons x xs ih => simp [ih]; ring

lemma sum_map_const {α : Type} (l : List α) (c : Rat) :
    (l.map fun _ => c).sum = (l.length : Rat) * c := by
  induction l with
  | nil => simp
  | cons x xs ih => simp [ih]; ring

lemma list_range_map_sum (n : Nat) (f : Nat → Rat) :
    ((List.range n).map f).sum = ∑ i ∈ Finset.range n, f i := by
  induction n with
  | zero => simp
  | succ m ih => rw [List.range_succ, Finset.sum_range_succ, ← ih]; simp

lemma avail_map_sum (g : DisparityGraph) (F : DisparityNode → Rat) :
    ((availableNodes g).map F).sum
      = ∑ r ∈ Finset.range g.rightImage.rows,
          ∑ c ∈ Finset.range g.rightImage.cols, F ⟨r, c, 0⟩ := by
  unfold availableNodes
  rw [List.map_flatMap]
  induction g.rightImage.rows with
  | zero => simp
  | succ m ih =>
    rw [List.range_succ, List.flatMap_append, List.sum_append,
      Finset.sum_range_succ, ih]
    simp [List.map_map, list_range_map_sum, Function.comp]

lemma avail_sum_collapse (g : DisparityGraph) (F : DisparityNode → Rat)
    (a b : Nat) :
    ((availableNodes g).map fun t =>
        if t.row = a ∧ t.column = b then F t else 0).sum
      = if a < g.rightImage.rows ∧ b < g.rightImage.cols
          then F ⟨a, b, 0⟩ else 0 := by
  rw [avail_map_sum]
  dsimp only
  have hinner : ∀ r, (∑ c ∈ Finset.range g.rightImage.cols,
      if r = a ∧ c = b then F ⟨r, c, 0⟩ else 0)
      = if r = a then
          (if b < g.rightImage.cols then F ⟨r, b, 0⟩ else 0)
        else 0 := by
    intro r
    by_cases hr : r = a
    · subst hr
      simp only [true_and, if_pos rfl]
      rw [Finset.sum_ite_eq' (Finset.range g.rightImage.cols) b
        fun c => F ⟨r, c, 0⟩]
      simp [Finset.mem_range]
    · rw [if_neg hr]
      apply Finset.sum_eq_zero
      intro c _
      rw [if_neg]
      simp only [not_and]
      intro hra
      exact absurd hra hr
  rw [Finset.sum_congr rfl fun r _ => hinner r]
  rw [Finset.sum_ite_eq' (Finset.range g.rightImage.rows) a
    fun r => if b < g.rightImage.cols then F ⟨r, b, 0⟩ else 0]
  simp only [Finset.mem_range]
  by_cases ha : a < g.rightImage.rows <;>
    by_cases hb : b < g.rightImage.cols <;>
      simp [ha, hb]

lemma rowmajor_inj {C r c nr nc : Nat} (hc : c < C) (hnc : nc < C) :
    r * C + c = nr * C + nc ↔ r = nr ∧ c = nc := by
  constructor
  · intro h
    rcases Nat.lt_trichotomy r nr with hlt | heq | hgt
    · exfalso
      have : r * C + c < nr * C + nc := by
        calc r * C + c < r * C + C := by omega
          _ = (r + 1) * C := by ring
          _ ≤ nr * C := Nat.mul_le_mul_right C (by omega)
          _ ≤ nr * C + nc := by omega
      omega
    · exact ⟨heq, by rw [heq] at h; omega⟩
    · exfalso
      have : nr * C + nc < r * C + c := by
        calc nr * C + nc < nr * C + C := by omega
          _ = (nr + 1) * C := by ring
          _ ≤ r * C := Nat.mul_le_mul_right C (by omega)
          _ ≤ r * C + c := by omega
      omega
  · rintro ⟨rfl, rfl⟩
    rfl

lemma slotTo_right (node : DisparityNode) :
    slotTo node ⟨node.row, node.column + 1, 0⟩ = some 2 := by
  unfold slotTo
  dsimp only
  rw [if_neg (by omega), if_pos (by omega)]
  congr 1
  omega

lemma slotTo_down (node : DisparityNode) :
    slotTo node ⟨node.row + 1, node.column, 0⟩ = some 3 := by
  unfold slotTo
  dsimp only
  rw [if_neg (by omega), if_pos (by omega)]
  congr 1
  omega

lemma slotTo_left (node : DisparityNode) (h : 0 < node.column) :
    slotTo node ⟨node.row, node.column - 1, 0⟩ = some 0 := by
  unfold slotTo
  dsimp only
  rw [if_pos (by omega)]
  congr 1
  omega

lemma slotTo_up (node : DisparityNode) (h : 0 < node.row) :
    slotTo node ⟨node.row - 1, node.column, 0⟩ = some 1 := by
  unfold slotTo
  dsimp only
  rw [if_pos (by omega)]
  congr 1
  omega

lemma slotTo_of_right (node : DisparityNode) :
    slotTo ⟨node.row, node.column + 1, 0⟩ node = some 0 := by
  unfold slotTo
  dsimp only
  rw [if_pos (by omega)]
  congr 1
  omega

lemma slotTo_of_down (node : DisparityNode) :
    slotTo ⟨node.row + 1, node.column, 0⟩ node = some 1 := by
  unfold slotTo
  dsimp only
  rw [if_pos (by omega)]
  congr 1
  omega

lemma slotTo_coords (nodeA nodeB : DisparityNode) :
    slotTo nodeA nodeB
      = slotTo ⟨nodeA.row, nodeA.column, 0⟩ ⟨nodeB.row, nodeB.column, 0⟩ :=
  rfl

lemma mem_ite_singleton {α : Type} {p : Prop} [Decidable p] {a x : α}
    (h : a ∈ (if p then [x] else ([] : List α))) : a = x ∧ p := by
  split_ifs at h with hp
  · exact ⟨List.mem_singleton.mp h, hp⟩
  · exact absurd h (List.not_mem_nil a)

lemma nodeNeighbors_directed_eq (g : DisparityGraph) (node : DisparityNode) :
    nodeNeighbors g node true
      = (if node.column < g.rightImage.cols - 1
          then [⟨node.row, node.column + 1, 0⟩] else [])
        ++ (if node.row < g.rightImage.rows - 1
          then [⟨node.row + 1, node.column, 0⟩] else []) := by
  unfold nodeNeighbors
  rw [if_pos rfl, List.append_nil]

lemma nodeNeighbors_undirected_eq (g : DisparityGraph) (node : DisparityNode) :
    nodeNeighbors g node false
      = ((if node.column < g.rightImage.cols - 1
          then [⟨node.row, node.column + 1, 0⟩] else [])
        ++ (if node.row < g.rightImage.rows - 1
          then [⟨node.row + 1, node.column, 0⟩] else []))
        ++ ((if 0 < node.column
          then [⟨node.row, node.column - 1, 0⟩] else [])
        ++ (if 0 < node.row
          then [⟨node.row - 1, node.column, 0⟩] else [])) := by
  unfold nodeNeighbors
  rw [if_neg Bool.false_ne_true]

lemma mem_nodeNeighbors {g : DisparityGraph} {node nb : DisparityNode}
    (h : nb ∈ nodeNeighbors g node false) :
    (nb = ⟨node.row, node.column + 1, 0⟩
        ∧ node.column < g.rightImage.cols - 1)
    ∨ (nb = ⟨node.row + 1, node.column, 0⟩
        ∧ node.row < g.rightImage.rows - 1)
    ∨ (nb = ⟨node.row, node.column - 1, 0⟩ ∧ 0 < node.column)
    ∨ (nb = ⟨node.row - 1, node.column, 0⟩ ∧ 0 < node.row) := by
  rw [nodeNeighbors_undirected_eq] at h
  simp only [List.mem_append] at h
  rcases h with (h | h) | (h | h)
  · exact Or.inl (mem_ite_singleton h)
  · exact Or.inr (Or.inl (mem_ite_singleton h))
  · exact Or.inr (Or.inr (Or.inl (mem_ite_singleton h)))
  · exact Or.inr (Or.inr (Or.inr (mem_ite_singleton h)))

lemma mem_nodeNeighbors_directed {g : DisparityGraph} {node nb : DisparityNode}
    (h : nb ∈ nodeNeighbors g node true) :
    (nb = ⟨node.row, node.column + 1, 0⟩
        ∧ node.column < g.rightImage.cols - 1)
    ∨ (nb = ⟨node.row + 1, node.column, 0⟩
        ∧ node.row < g.rightImage.rows - 1) := by
  rw [nodeNeighbors_directed_eq] at h
  rcases List.mem_append.mp h with h | h
  · exact Or.inl (mem_ite_singleton h)
  · exact Or.inr (mem_ite_singleton h)

lemma neighbor_slot_exists {g : DisparityGraph} {node nb : DisparityNode}
    (h : nb ∈ nodeNeighbors g node false) :
    ∃ s, slotTo node nb = some s := by
  rcases mem_nodeNeighbors h with ⟨rfl, _⟩ | ⟨rfl, _⟩ | ⟨rfl, hb⟩ | ⟨rfl, hb⟩
  · exact ⟨2, slotTo_right node⟩
  · exact ⟨3, slotTo_down node⟩
  · exact ⟨0, slotTo_left node hb⟩
  · exact ⟨1, slotTo_up node hb⟩

lemma nodeNeighbors_slots_nodup (g : DisparityGraph) (node : DisparityNode) :
    ((nodeNeighbors g node false).map
      fun nb => (slotTo node nb).getD 0).Nodup := by
  rw [nodeNeighbors_undirected_eq]
  by_cases h1 : node.column < g.rightImage.cols - 1 <;>
    by_cases h2 : node.row < g.rightImage.rows - 1 <;>
      by_cases h3 : 0 < node.column <;>
        by_cases h4 : 0 < node.row <;>
          simp [h1, h2, h3, h4, slotTo_right, slotTo_down,
            slotTo_left node, slotTo_up node]

/-- A message-table delta supported at one slot. -/
def single (s0 : Nat) (x : Rat) : Nat → Rat := fun s => if s0 = s then x else 0

/-- A message-table change localized at one node index and label,
shifting all slots by a given per-slot delta. -/
def bumpPhi (phi : Phi) (i0 d0 : Nat) (delta : Nat → Rat) : Phi :=
  fun i d s => if i = i0 ∧ d = d0 then phi i d s + delta s else phi i d s

lemma bumpPhi_zero (phi : Phi) (i0 d0 : Nat) :
    bumpPhi phi i0 d0 (fun _ => 0) = phi := by
  funext i d s
  unfold bumpPhi
  split_ifs <;> simp

lemma updatePhi_as_bump (phi : Phi) (i0 d0 s0 : Nat) (x : Rat) :
    updatePhi phi i0 d0 s0 x = bumpPhi phi i0 d0 (single s0 x) := by
  funext i d s
  unfold updatePhi bumpPhi single
  by_cases h1 : i = i0
  · by_cases h2 : d = d0
    · by_cases h3 : s = s0
      · rw [if_pos ⟨h1, h2, h3⟩, if_pos ⟨h1, h2⟩, if_pos h3.symm]
      · rw [if_neg (by tauto), if_pos ⟨h1, h2⟩,
          if_neg fun hss => h3 hss.symm, add_zero]
    · rw [if_neg (by tauto), if_neg (by tauto)]
  · rw [if_neg (by tauto), if_neg (by tauto)]

lemma bump_bump (phi : Phi) (i0 d0 : Nat) (da db : Nat → Rat) :
    bumpPhi (bumpPhi phi i0 d0 da) i0 d0 db
      = bumpPhi phi i0 d0 (fun s => da s + db s) := by
  funext i d s
  unfold bumpPhi
  split_ifs <;> ring

lemma bump_eval (phi : Phi) (i0 d0 : Nat) (delta : Nat → Rat)
    (i d s : Nat) :
    bumpPhi phi i0 d0 delta i d s
      = phi i d s + (if i = i0 ∧ d = d0 then delta s else 0) := by
  unfold bumpPhi
  split_ifs <;> simp

lemma changePassedPenalty_eq (g : DisparityGraph) (phi : Phi)
    (node nb : DisparityNode) (x : Rat) :
    changePassedPenalty g phi node nb x
      = (slotTo node nb).map fun s =>
          updatePhi phi (nodeIndex g node) node.disparity s x := by
  unfold changePassedPenalty slotTo
  split_ifs <;> rfl

lemma passedPenalty_eq (g : DisparityGraph) (phi : Phi)
    (node nb : DisparityNode)
    (hne : node.row ≠ nb.row ∨ node.column ≠ nb.column)
    {s1 s2 : Nat} (h1 : slotTo node nb = some s1)
    (h2 : slotTo nb node = some s2) :
    passedPenalty g phi node nb
      = some (phi (nodeIndex g node) node.disparity s1
          + phi (nodeIndex g nb) nb.disparity s2) := by
  unfold slotTo at h1 h2
  unfold passedPenalty
  split_ifs with hA hB
  · rw [if_pos hA] at h1
    rw [if_neg (by omega), if_pos hA] at h2
    simp only [Option.some.injEq] at h1 h2
    rw [h1, h2]
  · rw [if_neg hA, if_pos hB] at h1
    rw [if_pos hB] at h2
    simp only [Option.some.injEq] at h1 h2
    rw [h1, h2]
  · rw [if_neg hA, if_neg hB] at h1
    exact Option.noConfusion h1

lemma fold1_char (g : DisparityGraph) (node : DisparityNode) (nn : Nat)
    (L : List DisparityNode) :
    ∀ (a res : Phi × Rat),
      (∀ nb ∈ L, ∃ s, slotTo node nb = some s) →
      (L.foldlM (fun (acc : Phi × Rat) nb => do
          let m ← minEdgePenalty g acc.1 node nb
          let phi2 ← changePassedPenalty g acc.1 node nb (-m)
          pure (phi2, acc.2 + m / (nn : Rat))) a) = some res →
      ∃ ms : List Rat, ms.length = L.length
        ∧ res.2 = a.2 + (ms.map (· / (nn : Rat))).sum
        ∧ res.1 = bumpPhi a.1 (nodeIndex g node) node.disparity
            (fun s => ((L.zip ms).map fun p =>
              if (slotTo node p.1).getD 0 = s then -p.2 else 0).sum) := by
  induction L with
  | nil =>
    intro a res _ hres
    rw [List.foldlM_nil] at hres
    obtain rfl : a = res := Option.some.inj hres
    refine ⟨[], rfl, by simp, ?_⟩
    have hz : (fun s : Nat =>
        ((List.zip ([] : List DisparityNode) ([] : List Rat)).map fun p =>
          if (slotTo node p.1).getD 0 = s then -p.2 else 0).sum)
        = fun _ => (0 : Rat) := by
      funext s
      simp
    rw [hz, bumpPhi_zero]
  | cons nb L ih =>
    intro a res hslots hres
    rw [List.foldlM_cons] at hres
    obtain ⟨b, hb, hrest⟩ := Option.bind_eq_some.mp hres
    obtain ⟨m, _hm, hb2⟩ := Option.bind_eq_some.mp hb
    obtain ⟨phi2, hphi2, hb3⟩ := Option.bind_eq_some.mp hb2
    obtain rfl : (phi2, a.2 + m / (nn : Rat)) = b := Option.some.inj hb3
    obtain ⟨s0, hs0⟩ := hslots nb (by simp)
    have hphi2' : phi2
        = updatePhi a.1 (nodeIndex g node) node.disparity s0 (-m) := by
      rw [changePassedPenalty_eq, hs0] at hphi2
      exact (Option.some.inj hphi2).symm
    obtain ⟨ms, hlen, hsum, hphi⟩ :=
      ih _ _ (fun x hx => hslots x (by simp [hx])) hrest
    refine ⟨m :: ms, by simp [hlen], ?_, ?_⟩
    · rw [hsum]
      simp only [List.map_cons, List.sum_cons]
      ring
    · rw [hphi]
      dsimp only
      rw [hphi2', updatePhi_as_bump, bump_bump]
      congr 1
      funext s
      simp only [List.zip_cons_cons, List.map_cons, List.sum_cons, single,
        hs0, Option.getD_some]

lemma fold2_char (g : DisparityGraph) (node : DisparityNode) (c : Rat)
    (L : List DisparityNode) :
    ∀ (a res : Phi),
      (∀ nb ∈ L, ∃ s, slotTo node nb = some s) →
      (L.foldlM
        (fun (acc : Phi) nb => changePassedPenalty g acc node nb c) a)
        = some res →
      res = bumpPhi a (nodeIndex g node) node.disparity
        (fun s => (L.map fun nb =>
          if (slotTo node nb).getD 0 = s then c else 0).sum) := by
  induction L with
  | nil =>
    intro a res _ hres
    rw [List.foldlM_nil] at hres
    obtain rfl : a = res := Option.some.inj hres
    have hz : (fun s : Nat => ((([] : List DisparityNode)).map fun nb =>
        if (slotTo node nb).getD 0 = s then c else 0).sum)
        = fun _ => (0 : Rat) := by
      funext s
      simp
    rw [hz, bumpPhi_zero]
  | cons nb L ih =>
    intro a res hslots hres
    rw [List.foldlM_cons] at hres
    obtain ⟨b, hb, hrest⟩ := Option.bind_eq_some.mp hres
    obtain ⟨s0, hs0⟩ := hslots nb (by simp)
    have hb' : b = updatePhi a (nodeIndex g node) node.disparity s0 c := by
      rw [changePassedPenalty_eq, hs0] at hb
      exact (Option.some.inj hb).symm
    have hres2 := ih _ _ (fun x hx => hslots x (by simp [hx])) hrest
    rw [hres2, hb', updatePhi_as_bump, bump_bump]
    congr 1
    funext s
    simp only [List.map_cons, List.sum_cons, single, hs0, Option.getD_some]

/-- The per-slot delta that one processNode_ call applies at the
processed node and label: minus the minimal edge penalty toward the
neighbor owning the slot, plus the average of the minima. -/
def procDelta (node : DisparityNode) (L : List DisparityNode)
    (ms : List Rat) : Nat → Rat :=
  fun s =>
    ((L.zip ms).map fun p =>
      if (slotTo node p.1).getD 0 = s then -p.2 else 0).sum
    + (L.map fun nb =>
        if (slotTo node nb).getD 0 = s
        then (ms.map (· / (L.length : Rat))).sum else 0).sum

lemma processNode_char (g : DisparityGraph) (phi : Phi)
    (node : DisparityNode) (phi2 : Phi)
    (hproc : processNode g phi node = some phi2) :
    ∃ ms : List Rat, ms.length = (nodeNeighbors g node false).length
      ∧ phi2 = bumpPhi phi (nodeIndex g node) node.disparity
          (procDelta node (nodeNeighbors g node false) ms) := by
  unfold procDelta
  unfold processNode at hproc
  obtain ⟨acc1, hacc1, hsecond⟩ := Option.bind_eq_some.mp hproc
  have hslots : ∀ nb ∈ nodeNeighbors g node false,
      ∃ s, slotTo node nb = some s := fun _ h => neighbor_slot_exists h
  obtain ⟨ms, hlen, hsum, hphi1⟩ :=
    fold1_char g node (nodeNeighbors g node false).length
      (nodeNeighbors g node false) (phi, 0) acc1 hslots hacc1
  have h2 := fold2_char g node acc1.2 (nodeNeighbors g node false)
    acc1.1 phi2 hslots hsecond
  refine ⟨ms, hlen, ?_⟩
  rw [h2, hphi1, bump_bump]
  congr 1
  funext s
  rw [hsum]
  simp

lemma list_sum_ite_eq2 (l : List Nat) (hl : l.Nodup) (a : Nat) (x : Rat)
    (ha : a ∈ l) :
    (l.map fun v => if a = v then x else 0).sum = x := by
  have heq : (l.map fun v => if a = v then x else 0)
      = (l.map fun v => if v = a then x else 0) := by
    apply List.map_congr_left
    intro v _
    by_cases hv : v = a
    · rw [if_pos hv.symm, if_pos hv]
    · rw [if_neg fun hav => hv hav.symm, if_neg hv]
  rw [heq]
  exact list_sum_ite_eq l hl a x ha

lemma sum_map_neg {α : Type} (l : List α) (f : α → Rat) :
    (l.map fun x => -f x).sum = -((l.map f).sum) := by
  induction l with
  | nil => simp
  | cons x xs ih => simp [ih]; ring

lemma sum_ite_slot_left (node : DisparityNode) (L : List DisparityNode)
    (hnodup : (L.map fun nb => (slotTo node nb).getD 0).Nodup)
    (a : Nat) (ha : a ∈ L.map fun nb => (slotTo node nb).getD 0) (x : Rat) :
    (L.map fun nb => if a = (slotTo node nb).getD 0 then x else 0).sum = x := by
  have h := list_sum_ite_eq2 (L.map fun nb => (slotTo node nb).getD 0)
    hnodup a x ha
  rw [List.map_map] at h
  exact h

lemma sum_ite_slot_right (node : DisparityNode) (L : List DisparityNode)
    (hnodup : (L.map fun nb => (slotTo node nb).getD 0).Nodup)
    (a : Nat) (ha : a ∈ L.map fun nb => (slotTo node nb).getD 0) (x : Rat) :
    (L.map fun nb => if (slotTo node nb).getD 0 = a then x else 0).sum = x := by
  have h := list_sum_ite_eq (L.map fun nb => (slotTo node nb).getD 0)
    hnodup a x ha
  rw [List.map_map] at h
  exact h

lemma procDelta_sum_zero (node : DisparityNode) (L : List DisparityNode)
    (ms : List Rat) (hlen : ms.length = L.length)
    (hnodup : (L.map fun nb => (slotTo node nb).getD 0).Nodup) :
    (L.map fun nb =>
      procDelta node L ms ((slotTo node nb).getD 0)).sum = 0 := by
  unfold procDelta
  rw [sum_map_add]
  have h1 : (L.map fun nb => ((L.zip ms).map fun p =>
      if (slotTo node p.1).getD 0 = (slotTo node nb).getD 0
      then -p.2 else 0).sum).sum = -(ms.sum) := by
    rw [list_sum_comm]
    have hinner : ∀ p ∈ L.zip ms,
        (L.map fun nb =>
          if (slotTo node p.1).getD 0 = (slotTo node nb).getD 0
          then -p.2 else 0).sum = -p.2 := by
      intro p hp
      exact sum_ite_slot_left node L hnodup _
        (List.mem_map_of_mem _ (List.of_mem_zip hp).1) _
    rw [sum_map_congr hinner, sum_map_neg (L.zip ms) fun p => p.2]
    congr 1
    have : (L.zip ms).map (fun p => p.2) = ms :=
      List.map_snd_zip L ms (le_of_eq hlen)
    rw [this]
  have h2 : (L.map fun nb => (L.map fun q =>
      if (slotTo node q).getD 0 = (slotTo node nb).getD 0
      then (ms.map (· / (L.length : Rat))).sum else 0).sum).sum
      = (L.length : Rat) * (ms.map (· / (L.length : Rat))).sum := by
    have hinner : ∀ nb ∈ L, (L.map fun q =>
        if (slotTo node q).getD 0 = (slotTo node nb).getD 0
        then (ms.map (· / (L.length : Rat))).sum else 0).sum
        = (ms.map (· / (L.length : Rat))).sum := by
      intro nb hnb
      exact sum_ite_slot_right node L hnodup _
        (List.mem_map_of_mem _ hnb) _
    rw [sum_map_congr hinner, sum_map_const]
  rw [h1, h2, sum_map_div]
  by_cases hL : L.length = 0
  · have hms : ms = [] := List.eq_nil_of_length_eq_zero (by omega)
    subst hms
    simp
  · have hcast : ((L.length : Nat) : Rat) ≠ 0 := by
      exact_mod_cast hL
    have : ((L.length : Nat) : Rat) * (ms.sum / (L.length : Rat))
        = ms.sum := by
      field_simp
    rw [this]
    ring

lemma mem_availableNodes {g : DisparityGraph} {t : DisparityNode}
    (h : t ∈ availableNodes g) :
    ∃ r c, r < g.rightImage.rows ∧ c < g.rightImage.cols
      ∧ t = ⟨r, c, 0⟩ := by
  unfold availableNodes at h
  rw [List.mem_flatMap] at h
  obtain ⟨r, hr, h2⟩ := h
  rw [List.mem_map] at h2
  obtain ⟨c, hc, rfl⟩ := h2
  rw [List.mem_range] at hr
  rw [List.mem_range] at hc
  exact ⟨r, c, hr, hc, rfl⟩

lemma sum_fwd (g : DisparityGraph) (t : DisparityNode)
    (F : DisparityNode → Rat) :
    ((nodeNeighbors g t true).map F).sum
      = (if t.column < g.rightImage.cols - 1
          then F ⟨t.row, t.column + 1, 0⟩ else 0)
      + (if t.row < g.rightImage.rows - 1
          then F ⟨t.row + 1, t.column, 0⟩ else 0) := by
  rw [nodeNeighbors_directed_eq, List.map_append, List.sum_append]
  congr 1 <;> split_ifs <;> simp

lemma sum_undirected (g : DisparityGraph) (t : DisparityNode)
    (F : DisparityNode → Rat) :
    ((nodeNeighbors g t false).map F).sum
      = ((if t.column < g.rightImage.cols - 1
          then F ⟨t.row, t.column + 1, 0⟩ else 0)
        + (if t.row < g.rightImage.rows - 1
          then F ⟨t.row + 1, t.column, 0⟩ else 0))
      + ((if 0 < t.column then F ⟨t.row, t.column - 1, 0⟩ else 0)
        + (if 0 < t.row then F ⟨t.row - 1, t.column, 0⟩ else 0)) := by
  rw [nodeNeighbors_undirected_eq, List.map_append, List.sum_append,
    List.map_append, List.sum_append, List.map_append, List.sum_append]
  congr 1
  · congr 1 <;> split_ifs <;> simp
  · congr 1 <;> split_ifs <;> simp

lemma passedPenaltyQ_bump (g : DisparityGraph) (phi : Phi) (i0 d0 : Nat)
    (delta : Nat → Rat) (nodeA nodeB : DisparityNode)
    (hne : nodeA.row ≠ nodeB.row ∨ nodeA.column ≠ nodeB.column)
    {s1 s2 : Nat} (h1 : slotTo nodeA nodeB = some s1)
    (h2 : slotTo nodeB nodeA = some s2) :
    passedPenaltyQ g (bumpPhi phi i0 d0 delta) nodeA nodeB
      - passedPenaltyQ g phi nodeA nodeB
    = (if nodeIndex g nodeA = i0 ∧ nodeA.disparity = d0
        then delta s1 else 0)
      + (if nodeIndex g nodeB = i0 ∧ nodeB.disparity = d0
        then delta s2 else 0) := by
  unfold passedPenaltyQ
  rw [passedPenalty_eq g (bumpPhi phi i0 d0 delta) nodeA nodeB hne h1 h2,
    passedPenalty_eq g phi nodeA nodeB hne h1 h2]
  simp only [Option.getD_some]
  rw [bump_eval, bump_eval]
  ring

lemma pair_diff (g : DisparityGraph) (phi : Phi) (node : DisparityNode)
    (delta : Nat → Rat) (lbl : Nat → Nat → Nat) (r c r2 c2 : Nat)
    {s1 s2 : Nat}
    (hne : r ≠ r2 ∨ c ≠ c2)
    (h1 : slotTo (⟨r, c, lbl r c⟩ : DisparityNode)
      ⟨r2, c2, lbl r2 c2⟩ = some s1)
    (h2 : slotTo (⟨r2, c2, lbl r2 c2⟩ : DisparityNode)
      ⟨r, c, lbl r c⟩ = some s2)
    (hcb : c < g.rightImage.cols) (hcb2 : c2 < g.rightImage.cols)
    (hnc : node.column < g.rightImage.cols) :
    (passedPenaltyQ g (bumpPhi phi (nodeIndex g node) node.disparity delta)
        ⟨r, c, lbl r c⟩ ⟨r2, c2, lbl r2 c2⟩
      + penaltyQ g ⟨r, c, lbl r c⟩ ⟨r2, c2, lbl r2 c2⟩)
    - (passedPenaltyQ g phi ⟨r, c, lbl r c⟩ ⟨r2, c2, lbl r2 c2⟩
      + penaltyQ g ⟨r, c, lbl r c⟩ ⟨r2, c2, lbl r2 c2⟩)
    = (if (r = node.row ∧ c = node.column) ∧ lbl r c = node.disparity
        then delta s1 else 0)
      + (if (r2 = node.row ∧ c2 = node.column) ∧ lbl r2 c2 = node.disparity
        then delta s2 else 0) := by
  have hd := passedPenaltyQ_bump g phi (nodeIndex g node) node.disparity
    delta ⟨r, c, lbl r c⟩ ⟨r2, c2, lbl r2 c2⟩ hne h1 h2
  have hc1 : (nodeIndex g ⟨r, c, lbl r c⟩ = nodeIndex g node
      ∧ (⟨r, c, lbl r c⟩ : DisparityNode).disparity = node.disparity)
      ↔ ((r = node.row ∧ c = node.column)
        ∧ lbl r c = node.disparity) := by
    unfold nodeIndex
    dsimp only
    rw [rowmajor_inj hcb hnc]
  have hc2 : (nodeIndex g ⟨r2, c2, lbl r2 c2⟩ = nodeIndex g node
      ∧ (⟨r2, c2, lbl r2 c2⟩ : DisparityNode).disparity = node.disparity)
      ↔ ((r2 = node.row ∧ c2 = node.column)
        ∧ lbl r2 c2 = node.disparity) := by
    unfold nodeIndex
    dsimp only
    rw [rowmajor_inj hcb2 hnc]
  rw [if_congr hc1 rfl rfl, if_congr hc2 rfl rfl] at hd
  linarith [hd]

/-- A 2-by-2 zero-image graph used to instantiate concrete runs of the
diffusion update. -/
def graphW : DisparityGraph :=
  ⟨⟨2, 2, fun _ _ => 0⟩, ⟨2, 2, fun _ _ => 0⟩, 1⟩

/-- The all-zero message table. -/
def phiW0 : Phi := fun _ _ _ => 0

/-- The message table produced by one diffusion update at node (0,0,0)
of the 2-by-2 zero graph. -/
def phiW2 : Phi := (processNode graphW phiW0 ⟨0, 0, 0⟩).getD phiW0

/-- C3: a single processNode_ update at a valid node is a
reparametrization: the changes it applies to the messages from the
processed node at its label sum to zero over the node's neighbors, and
the reparametrized total energy (stored passed penalty plus raw
pairwise penalty, summed over all grid edges) of every labeling is
unchanged. -/
theorem processNode_conserves_energy (g : DisparityGraph) (phi phi2 : Phi)
    (node : DisparityNode) (hv : checkNodeB g node = true)
    (hproc : processNode g phi node = some phi2) :
    (((nodeNeighbors g node false).map fun nb =>
        phi2 (nodeIndex g node) node.disparity ((slotTo node nb).getD 0)
          - phi (nodeIndex g node) node.disparity
              ((slotTo node nb).getD 0)).sum = 0)
    ∧ ∀ lbl : Nat → Nat → Nat,
        reparamEnergy g phi2 lbl = reparamEnergy g phi lbl := by
  have hvb : node.row < g.rightImage.rows
      ∧ node.column < g.rightImage.cols := by
    have h := hv
    unfold checkNodeB at h
    simp only [Bool.and_eq_true, decide_eq_true_eq] at h
    exact ⟨h.1.1, h.1.2⟩
  obtain ⟨hnr, hnc⟩ := hvb
  obtain ⟨ms, hlen, hchar⟩ := processNode_char g phi node phi2 hproc
  have hnodup := nodeNeighbors_slots_nodup g node
  have hdelta0 :=
    procDelta_sum_zero node (nodeNeighbors g node false) ms hlen hnodup
  set d := procDelta node (nodeNeighbors g node false) ms with hd
  constructor
  · have hones : ∀ nb ∈ nodeNeighbors g node false,
        phi2 (nodeIndex g node) node.disparity ((slotTo node nb).getD 0)
          - phi (nodeIndex g node) node.disparity ((slotTo node nb).getD 0)
        = d ((slotTo node nb).getD 0) := by
      intro nb _
      rw [hchar, bump_eval, if_pos ⟨rfl, rfl⟩]
      ring
    rw [sum_map_congr hones]
    exact hdelta0
  · intro lbl
    rw [← sub_eq_zero, hchar]
    unfold reparamEnergy
    rw [← sum_map_sub]
    have hper : ∀ t ∈ availableNodes g,
        ((nodeNeighbors g t true).map fun u =>
            passedPenaltyQ g (bumpPhi phi (nodeIndex g node) node.disparity d)
                (nodeAt lbl t.row t.column) (nodeAt lbl u.row u.column)
              + penaltyQ g (nodeAt lbl t.row t.column)
                  (nodeAt lbl u.row u.column)).sum
          - ((nodeNeighbors g t true).map fun u =>
            passedPenaltyQ g phi (nodeAt lbl t.row t.column)
                (nodeAt lbl u.row u.column)
              + penaltyQ g (nodeAt lbl t.row t.column)
                  (nodeAt lbl u.row u.column)).sum
        = ((if t.row = node.row ∧ t.column = node.column then
              (if node.column < g.rightImage.cols - 1
                  ∧ lbl node.row node.column = node.disparity
                then d 2 else 0) else 0)
            + (if t.row = node.row ∧ t.column = node.column - 1 then
              (if 0 < node.column
                  ∧ lbl node.row node.column = node.disparity
                then d 0 else 0) else 0))
          + ((if t.row = node.row ∧ t.column = node.column then
              (if node.row < g.rightImage.rows - 1
                  ∧ lbl node.row node.column = node.disparity
                then d 3 else 0) else 0)
            + (if t.row = node.row - 1 ∧ t.column = node.column then
              (if 0 < node.row
                  ∧ lbl node.row node.column = node.disparity
                then d 1 else 0) else 0)) := by
      intro t ht
      obtain ⟨r, c, hr, hc, rfl⟩ := mem_availableNodes ht
      rw [← sum_map_sub, sum_fwd]
      simp only [nodeAt]
      have hs1 : slotTo (⟨r, c, lbl r c⟩ : DisparityNode)
          ⟨r, c + 1, lbl r (c + 1)⟩ = some 2 := slotTo_right ⟨r, c, 0⟩
      have hs2 : slotTo (⟨r, c + 1, lbl r (c + 1)⟩ : DisparityNode)
          ⟨r, c, lbl r c⟩ = some 0 := slotTo_of_right ⟨r, c, 0⟩
      have hs3 : slotTo (⟨r, c, lbl r c⟩ : DisparityNode)
          ⟨r + 1, c, lbl (r + 1) c⟩ = some 3 := slotTo_down ⟨r, c, 0⟩
      have hs4 : slotTo (⟨r + 1, c, lbl (r + 1) c⟩ : DisparityNode)
          ⟨r, c, lbl r c⟩ = some 1 := slotTo_of_down ⟨r, c, 0⟩
      have hApos : c < g.rightImage.cols - 1 →
          (if (r = node.row ∧ c = node.column)
              ∧ lbl r c = node.disparity then d 2 else 0)
          = (if r = node.row ∧ c = node.column then
              (if node.column < g.rightImage.cols - 1
                  ∧ lbl node.row node.column = node.disparity
                then d 2 else 0) else 0) := by
        intro hg
        by_cases hA : r = node.row ∧ c = node.column
        · obtain ⟨h1, h2⟩ := hA
          subst h1
          subst h2
          by_cases hk : lbl node.row node.column = node.disparity
          · rw [if_pos ⟨⟨rfl, rfl⟩, hk⟩, if_pos ⟨rfl, rfl⟩, if_pos ⟨hg, hk⟩]
          · rw [if_neg fun hcon => hk hcon.2, if_pos ⟨rfl, rfl⟩,
              if_neg fun hcon => hk hcon.2]
        · rw [if_neg fun hcon => hA hcon.1, if_neg hA]
      have hB_eq : (if (r = node.row ∧ c + 1 = node.column)
              ∧ lbl r (c + 1) = node.disparity then d 0 else 0)
          = (if r = node.row ∧ c = node.column - 1 then
              (if 0 < node.column
                  ∧ lbl node.row node.column = node.disparity
                then d 0 else 0) else 0) := by
        by_cases hB : r = node.row ∧ c + 1 = node.column
        · obtain ⟨h1, h2⟩ := hB
          subst h1
          rw [← h2]
          by_cases hk : lbl node.row (c + 1) = node.disparity
          · rw [if_pos ⟨⟨rfl, rfl⟩, hk⟩, if_pos ⟨rfl, by omega⟩,
              if_pos ⟨by omega, hk⟩]
          · rw [if_neg fun hcon => hk hcon.2, if_pos ⟨rfl, by omega⟩,
              if_neg fun hcon => hk hcon.2]
        · rw [if_neg fun hcon => hB hcon.1]
          by_cases hB2 : r = node.row ∧ c = node.column - 1
          · rw [if_pos hB2, if_neg]
            rintro ⟨hpos, -⟩
            exact hB ⟨hB2.1, by omega⟩
          · rw [if_neg hB2]
      have hCpos : r < g.rightImage.rows - 1 →
          (if (r = node.row ∧ c = node.column)
              ∧ lbl r c = node.disparity then d 3 else 0)
          = (if r = node.row ∧ c = node.column then
              (if node.row < g.rightImage.rows - 1
                  ∧ lbl node.row node.column = node.disparity
                then d 3 else 0) else 0) := by
        intro hg
        by_cases hA : r = node.row ∧ c = node.column
        · obtain ⟨h1, h2⟩ := hA
          subst h1
          subst h2
          by_cases hk : lbl node.row node.column = node.disparity
          · rw [if_pos ⟨⟨rfl, rfl⟩, hk⟩, if_pos ⟨rfl, rfl⟩, if_pos ⟨hg, hk⟩]
          · rw [if_neg fun hcon => hk hcon.2, if_pos ⟨rfl, rfl⟩,
              if_neg fun hcon => hk hcon.2]
        · rw [if_neg fun hcon => hA hcon.1, if_neg hA]
      have hD_eq : (if (r + 1 = node.row ∧ c = node.column)
              ∧ lbl (r + 1) c = node.disparity then d 1 else 0)
          = (if r = node.row - 1 ∧ c = node.column then
              (if 0 < node.row
                  ∧ lbl node.row node.column = node.disparity
                then d 1 else 0) else 0) := by
        by_cases hB : r + 1 = node.row ∧ c = node.column
        · obtain ⟨h1, h2⟩ := hB
          subst h2
          rw [← h1]
          by_cases hk : lbl (r + 1) node.column = node.disparity
          · rw [if_pos ⟨⟨rfl, rfl⟩, hk⟩, if_pos ⟨by omega, rfl⟩,
              if_pos ⟨by omega, hk⟩]
          · rw [if_neg fun hcon => hk hcon.2, if_pos ⟨by omega, rfl⟩,
              if_neg fun hcon => hk hcon.2]
        · rw [if_neg fun hcon => hB hcon.1]
          by_cases hB2 : r = node.row - 1 ∧ c = node.column
          · rw [if_pos hB2, if_neg]
            rintro ⟨hpos, -⟩
            exact hB ⟨by omega, hB2.2⟩
          · rw [if_neg hB2]
      have hAneg : ¬ c < g.rightImage.cols - 1 →
          (if r = node.row ∧ c = node.column then
            (if node.column < g.rightImage.cols - 1
                ∧ lbl node.row node.column = node.disparity
              then d 2 else 0) else 0) = 0 := by
        intro hg
        by_cases hA : r = node.row ∧ c = node.column
        · rw [if_pos hA, if_neg]
          rintro ⟨hlt, -⟩
          exact hg (by omega)
        · rw [if_neg hA]
      have hBneg : ¬ c < g.rightImage.cols - 1 →
          (if r = node.row ∧ c = node.column - 1 then
            (if 0 < node.column
                ∧ lbl node.row node.column = node.disparity
              then d 0 else 0) else 0) = 0 := by
        intro hg
        by_cases hB2 : r = node.row ∧ c = node.column - 1
        · rw [if_pos hB2, if_neg]
          rintro ⟨hpos, -⟩
          exact hg (by omega)
        · rw [if_neg hB2]
      have hCneg : ¬ r < g.rightImage.rows - 1 →
          (if r = node.row ∧ c = node.column then
            (if node.row < g.rightImage.rows - 1
                ∧ lbl node.row node.column = node.disparity
              then d 3 else 0) else 0) = 0 := by
        intro hg
        by_cases hA : r = node.row ∧ c = node.column
        · rw [if_pos hA, if_neg]
          rintro ⟨hlt, -⟩
          exact hg (by omega)
        · rw [if_neg hA]
      have hDneg : ¬ r < g.rightImage.rows - 1 →
          (if r = node.row - 1 ∧ c = node.column then
            (if 0 < node.row
                ∧ lbl node.row node.column = node.disparity
              then d 1 else 0) else 0) = 0 := by
        intro hg
        by_cases hB2 : r = node.row - 1 ∧ c = node.column
        · rw [if_pos hB2, if_neg]
          rintro ⟨hpos, -⟩
          exact hg (by omega)
        · rw [if_neg hB2]
      by_cases hgr : c < g.rightImage.cols - 1
        <;> by_cases hgd : r < g.rightImage.rows - 1
      · rw [if_pos hgr, if_pos hgd,
          pair_diff g phi node d lbl r c r (c + 1) (Or.inr (by omega))
            hs1 hs2 hc (by omega) hnc,
          pair_diff g phi node d lbl r c (r + 1) c (Or.inl (by omega))
            hs3 hs4 hc hc hnc,
          hApos hgr, hB_eq, hCpos hgd, hD_eq]
      · rw [if_pos hgr, if_neg hgd,
          pair_diff g phi node d lbl r c r (c + 1) (Or.inr (by omega))
            hs1 hs2 hc (by omega) hnc,
          hApos hgr, hB_eq, hCneg hgd, hDneg hgd]
        ring
      · rw [if_neg hgr, if_pos hgd,
          pair_diff g phi node d lbl r c (r + 1) c (Or.inl (by omega))
            hs3 hs4 hc hc hnc,
          hAneg hgr, hBneg hgr, hCpos hgd, hD_eq]
        ring
      · rw [if_neg hgr, if_neg hgd, hAneg hgr, hBneg hgr, hCneg hgd,
          hDneg hgd]
        ring
    rw [sum_map_congr hper]
    rw [sum_map_add, sum_map_add, sum_map_add]
    rw [avail_sum_collapse, avail_sum_collapse, avail_sum_collapse,
      avail_sum_collapse]
    have houter1 : node.row < g.rightImage.rows
        ∧ node.column < g.rightImage.cols := ⟨hnr, hnc⟩
    have houter2 : node.row < g.rightImage.rows
        ∧ node.column - 1 < g.rightImage.cols := ⟨hnr, by omega⟩
    have houter4 : node.row - 1 < g.rightImage.rows
        ∧ node.column < g.rightImage.cols := ⟨by omega, hnc⟩
    rw [if_pos houter1, if_pos houter2, if_pos houter1, if_pos houter4]
    by_cases hk : lbl node.row node.column = node.disparity
    · rw [sum_undirected] at hdelta0
      simp only [slotTo_right, slotTo_down, Option.getD_some] at hdelta0
      have hlft : (if 0 < node.column then
          d ((slotTo node ⟨node.row, node.column - 1, 0⟩).getD 0) else 0)
          = (if 0 < node.column then d 0 else 0) := by
        by_cases hb : 0 < node.column
        · rw [if_pos hb, if_pos hb, slotTo_left node hb, Option.getD_some]
        · rw [if_neg hb, if_neg hb]
      have hup2 : (if 0 < node.row then
          d ((slotTo node ⟨node.row - 1, node.column, 0⟩).getD 0) else 0)
          = (if 0 < node.row then d 1 else 0) := by
        by_cases hb : 0 < node.row
        · rw [if_pos hb, if_pos hb, slotTo_up node hb, Option.getD_some]
        · rw [if_neg hb, if_neg hb]
      rw [hlft, hup2] at hdelta0
      simp only [hk, eq_self_iff_true, and_true]
      linarith [hdelta0]
    · rw [if_neg fun hcon => hk hcon.2, if_neg fun hcon => hk hcon.2,
        if_neg fun hcon => hk hcon.2, if_neg fun hcon => hk hcon.2]
      ring

/-- C3 witness: a concrete diffusion update on the 2-by-2 zero graph
succeeds and preserves the reparametrized energy of the zero
labeling. -/
theorem processNode_conserves_energy_witness :
    checkNodeB graphW ⟨0, 0, 0⟩ = true
    ∧ processNode graphW phiW0 ⟨0, 0, 0⟩ = some phiW2
    ∧ reparamEnergy graphW phiW2 (fun _ _ => 0)
        = reparamEnergy graphW phiW0 (fun _ _ => 0) :=
  ⟨by decide, rfl,
    (processNode_conserves_energy graphW phiW0 phiW2 ⟨0, 0, 0⟩
      (by decide) rfl).2 fun _ _ => 0⟩

/-- Modelled from the spec: the ordering of DisparityNode used by the
BooleanGraph to orient edges — lexicographic on (row, column) per
section 3.6 (the comparison operator is declared in the missing
diffusion-era header). -/
def nodeLt (a b : DisparityNode) : Bool :=
  decide (a.row < b.row)
  || (decide (a.row = b.row) && decide (a.column < b.column))

/-- The index of the directed slot from a node to a neighbor that is
not above nor to the left: 2*(row difference) + column difference - 1,
as computed by BooleanGraph::edgeAvailable_ and removeEdge. -/
def dirNeighborIndex (node neighbor : DisparityNode) : Nat :=
  2 * (neighbor.row - node.row) + neighbor.column - node.column - 1

/-- The BooleanGraph availability state: one bit per (node index,
label) and one bit per (node index, label, neighbor slot, neighbor
label). -/
structure BGraph where
  nodesAvail : Nat → Nat → Bool
  edgesAvail : Nat → Nat → Nat → Nat → Bool

/-- BooleanGraph::nodeAvailable. -/
def bgNodeAvailable (g : DisparityGraph) (s : BGraph)
    (node : DisparityNode) : Bool :=
  s.nodesAvail (nodeIndex g node) node.disparity

/-- BooleanGraph::edgeAvailable_: orient the pair by the node order and
read the stored edge bit (the source recurses once to swap the
arguments; the swap is inlined here). -/
def edgeAvailable (g : DisparityGraph) (s : BGraph)
    (node neighbor : DisparityNode) : Bool :=
  if nodeLt node neighbor = true then
    s.edgesAvail (nodeIndex g node) node.disparity
      (dirNeighborIndex node neighbor) neighbor.disparity
  else
    s.edgesAvail (nodeIndex g neighbor) neighbor.disparity
      (dirNeighborIndex neighbor node) node.disparity

/-- BooleanGraph::removeEdge: orient the pair by the node order (the
source recurses once to swap the arguments) and clear the stored edge
bit. -/
def removeEdge (g : DisparityGraph) (s : BGraph)
    (node neighbor : DisparityNode) : BGraph :=
  if nodeLt node neighbor = true then
    { s with edgesAvail := fun i d n nd =>
        if i = nodeIndex g node ∧ d = node.disparity
            ∧ n = dirNeighborIndex node neighbor ∧ nd = neighbor.disparity
        then false else s.edgesAvail i d n nd }
  else
    { s with edgesAvail := fun i d n nd =>
        if i = nodeIndex g neighbor ∧ d = neighbor.disparity
            ∧ n = dirNeighborIndex neighbor node ∧ nd = node.disparity
        then false else s.edgesAvail i d n nd }

/-- BooleanGraph::removeNode_: clear the node bit, then clear the edge
bit to every neighbor label in the neighbor's admissible range. -/
def removeNode (g : DisparityGraph) (s : BGraph)
    (node : DisparityNode) : BGraph :=
  (nodeNeighbors g node false).foldl
    (fun acc nb =>
      (List.range' (minNeighborDisparity g node nb)
        (maxNeighborDisparity g node nb
          - minNeighborDisparity g node nb)).foldl
        (fun acc2 ndisp =>
          removeEdge g acc2 node ⟨nb.row, nb.column, ndisp⟩) acc)
    { s with nodesAvail := fun i d =>
        if i = nodeIndex g node ∧ d = node.disparity
        then false else s.nodesAvail i d }

/-- The body of the node loop of BooleanGraph::deletionIteration_: the
state is (availability, changed, graphExists); graphExists is reset for
each node, then every admissible label of the node is checked for
support toward every neighbor. -/
def deletionNodeStep (g : DisparityGraph) (acc : BGraph × Bool × Bool)
    (node0 : DisparityNode) : BGraph × Bool × Bool :=
  (graphNodeDisparities g node0).foldl
    (fun (a : BGraph × Bool × Bool) disp =>
      if bgNodeAvailable g a.1 ⟨node0.row, node0.column, disp⟩ = false
      then a
      else
        (nodeNeighbors g ⟨node0.row, node0.column, disp⟩ false).foldl
          (fun (b : BGraph × Bool × Bool) nb =>
            if (List.range'
                (minNeighborDisparity g ⟨node0.row, node0.column, disp⟩ nb)
                (maxNeighborDisparity g ⟨node0.row, node0.column, disp⟩ nb
                  - minNeighborDisparity g
                      ⟨node0.row, node0.column, disp⟩ nb)).any
                (fun ndisp => edgeAvailable g b.1
                  ⟨node0.row, node0.column, disp⟩
                  ⟨nb.row, nb.column, ndisp⟩) = false
            then (removeNode g b.1 ⟨node0.row, node0.column, disp⟩,
                  true, b.2.2)
            else (b.1, b.2.1, true)) a)
    (acc.1, acc.2.1, false)

/-- The node scan of BooleanGraph::deletionIteration_. -/
def deletionScan (g : DisparityGraph) (s : BGraph) : BGraph × Bool × Bool :=
  (availableNodes g).foldl (deletionNodeStep g) (s, false, false)

/-- The wipe performed by deletionIteration_ when the scan ends with
graphExists false: remove every admissible label of every node. -/
def wipeAll (g : DisparityGraph) (s : BGraph) : BGraph :=
  (availableNodes g).foldl
    (fun acc node0 =>
      (graphNodeDisparities g node0).foldl
        (fun a disp => removeNode g a ⟨node0.row, node0.column, disp⟩)
        acc)
    s

/-- BooleanGraph::deletionIteration_: scan all nodes removing labels
without neighbor support; when the scan ends with graphExists false,
wipe the whole grid and report no change. -/
def deletionIteration (g : DisparityGraph) (s : BGraph) : BGraph × Bool :=
  if (deletionScan g s).2.2 = false
  then (wipeAll g (deletionScan g s).1, false)
  else ((deletionScan g s).1, (deletionScan g s).2.1)

/-- The while loop of BooleanGraph::isFinished, with fuel for the
unbounded source loop. -/
def runDeletions (g : DisparityGraph) : Nat → BGraph → Option BGraph
  | 0, _ => none
  | fuel + 1, s =>
    if (deletionIteration g s).2 = true
    then runDeletions g fuel (deletionIteration g s).1
    else some (deletionIteration g s).1

/-- The final scan of BooleanGraph::isFinished: whether any admissible
label of any node is still available. -/
def anyNodeAvailable (g : DisparityGraph) (s : BGraph) : Bool :=
  (availableNodes g).any fun node0 =>
    (graphNodeDisparities g node0).any fun disp =>
      bgNodeAvailable g s ⟨node0.row, node0.column, disp⟩

/-- BooleanGraph::isFinished: run the deletion loop to quiescence
(fuelled), then report whether some label survived. -/
def bgIsFinished (g : DisparityGraph) (fuel : Nat) (s : BGraph) :
    Option (Bool × BGraph) :=
  (runDeletions g fuel s).map fun s1 => (anyNodeAvailable g s1, s1)

lemma foldl_pres_mem {σ α : Type} (step : σ → α → σ) (P : σ → Prop)
    (l : List α) (hpres : ∀ s a, a ∈ l → P s → P (step s a)) :
    ∀ s, P s → P (l.foldl step s) := by
  induction l with
  | nil => intro s h; exact h
  | cons x xs ih =>
    intro s h
    rw [List.foldl_cons]
    exact ih (fun s' a ha => hpres s' a (by simp [ha])) _
      (hpres s x (by simp) h)

lemma foldl_estab_mem {σ α : Type} (step : σ → α → σ) (P : σ → Prop)
    (l : List α) (hpres : ∀ s a, a ∈ l → P s → P (step s a)) (a0 : α)
    (hest : ∀ s, P (step s a0)) :
    a0 ∈ l → ∀ s, P (l.foldl step s) := by
  induction l with
  | nil => intro h; exact absurd h (List.not_mem_nil a0)
  | cons x xs ih =>
    intro hmem s
    rw [List.foldl_cons]
    rcases List.mem_cons.mp hmem with rfl | hm
    · exact foldl_pres_mem step P xs
        (fun s' a ha => hpres s' a (by simp [ha])) _ (hest s)
    · exact ih (fun s' a ha => hpres s' a (by simp [ha])) hm _

lemma removeEdge_nodes (g : DisparityGraph) (s : BGraph)
    (node nb : DisparityNode) :
    (removeEdge g s node nb).nodesAvail = s.nodesAvail := by
  unfold removeEdge
  split_ifs <;> rfl

lemma removeEdge_edges_le (g : DisparityGraph) (s : BGraph)
    (node nb : DisparityNode) :
    ∀ i d n nd, (removeEdge g s node nb).edgesAvail i d n nd = true →
      s.edgesAvail i d n nd = true := by
  intro i d n nd
  unfold removeEdge
  split_ifs
  · dsimp only
    split_ifs with h
    · intro hh
      exact hh.elim
    · exact id
  · dsimp only
    split_ifs with h
    · intro hh
      exact hh.elim
    · exact id

lemma edgeAvailable_le (g : DisparityGraph) {s s' : BGraph}
    (hmono : ∀ i d n nd, s'.edgesAvail i d n nd = true →
      s.edgesAvail i d n nd = true) (A B : DisparityNode) :
    edgeAvailable g s' A B = true → edgeAvailable g s A B = true := by
  unfold edgeAvailable
  split_ifs <;> exact hmono _ _ _ _

lemma removeEdge_clears (g : DisparityGraph) (s : BGraph)
    (A B : DisparityNode) :
    edgeAvailable g (removeEdge g s A B) A B = false := by
  unfold removeEdge edgeAvailable
  split_ifs with h
  · dsimp only
    rw [if_pos ⟨rfl, rfl, rfl, rfl⟩]
  · dsimp only
    rw [if_pos ⟨rfl, rfl, rfl, rfl⟩]

lemma edgeAvailable_false_pres (g : DisparityGraph) {s : BGraph}
    (X Y A B : DisparityNode)
    (h : edgeAvailable g s A B = false) :
    edgeAvailable g (removeEdge g s X Y) A B = false := by
  cases hval : edgeAvailable g (removeEdge g s X Y) A B with
  | false => rfl
  | true =>
    have h2 := edgeAvailable_le g (removeEdge_edges_le g s X Y) A B hval
    rw [h] at h2
    exact Bool.noConfusion h2

lemma foldl_nodes_eq {α : Type} (step : BGraph → α → BGraph)
    (hstep : ∀ s a, (step s a).nodesAvail = s.nodesAvail) :
    ∀ (l : List α) (s : BGraph), (l.foldl step s).nodesAvail = s.nodesAvail := by
  intro l
  induction l with
  | nil => intro s; rfl
  | cons x xs ih =>
    intro s
    rw [List.foldl_cons, ih, hstep]

lemma removeNode_nodesAvail (g : DisparityGraph) (s : BGraph)
    (node : DisparityNode) :
    (removeNode g s node).nodesAvail = fun i d =>
      if i = nodeIndex g node ∧ d = node.disparity
      then false else s.nodesAvail i d := by
  unfold removeNode
  rw [foldl_nodes_eq]
  intro s' nb
  rw [foldl_nodes_eq]
  intro s'' ndisp
  exact removeEdge_nodes g s'' node ⟨nb.row, nb.column, ndisp⟩

lemma removeNode_nodes_le (g : DisparityGraph) (s : BGraph)
    (t : DisparityNode) (i d : Nat) :
    (removeNode g s t).nodesAvail i d = true → s.nodesAvail i d = true := by
  rw [removeNode_nodesAvail]
  dsimp only
  split_ifs with h
  · intro hh
    exact hh.elim
  · exact id

lemma nodesAvail_false_pres_removeNode (g : DisparityGraph) {s : BGraph}
    (t : DisparityNode) (i d : Nat)
    (h : s.nodesAvail i d = false) :
    (removeNode g s t).nodesAvail i d = false := by
  cases hval : (removeNode g s t).nodesAvail i d with
  | false => rfl
  | true =>
    have h2 := removeNode_nodes_le g s t i d hval
    rw [h] at h2
    exact Bool.noConfusion h2

lemma removeNode_edges_le (g : DisparityGraph) (s : BGraph)
    (t : DisparityNode) :
    ∀ i d n nd, (removeNode g s t).edgesAvail i d n nd = true →
      s.edgesAvail i d n nd = true := by
  intro i d n nd
  unfold removeNode
  have hgen : ∀ (l : List DisparityNode) (s0 : BGraph),
      (l.foldl (fun acc nb =>
        (List.range' (minNeighborDisparity g t nb)
          (maxNeighborDisparity g t nb
            - minNeighborDisparity g t nb)).foldl
          (fun acc2 ndisp =>
            removeEdge g acc2 t ⟨nb.row, nb.column, ndisp⟩) acc)
        s0).edgesAvail i d n nd = true →
      s0.edgesAvail i d n nd = true := by
    intro l
    induction l with
    | nil => intro s0; exact id
    | cons x xs ih =>
      intro s0 h
      have h1 := ih _ h
      have hinner : ∀ (r : List Nat) (s2 : BGraph),
          (r.foldl (fun acc2 ndisp =>
            removeEdge g acc2 t ⟨x.row, x.column, ndisp⟩) s2).edgesAvail
              i d n nd = true →
          s2.edgesAvail i d n nd = true := by
        intro r
        induction r with
        | nil => intro s2; exact id
        | cons y ys ih2 =>
          intro s2 hh
          exact removeEdge_edges_le g s2 t ⟨x.row, x.column, y⟩ i d n nd
            (ih2 _ hh)
      exact hinner _ _ h1
  exact hgen _ _

lemma edgeAvailable_false_pres_removeNode (g : DisparityGraph) {s : BGraph}
    (t A B : DisparityNode)
    (h : edgeAvailable g s A B = false) :
    edgeAvailable g (removeNode g s t) A B = false := by
  cases hval : edgeAvailable g (removeNode g s t) A B with
  | false => rfl
  | true =>
    have h2 := edgeAvailable_le g (removeNode_edges_le g s t) A B hval
    rw [h] at h2
    exact Bool.noConfusion h2

lemma removeNode_clears_node (g : DisparityGraph) (s : BGraph)
    (node : DisparityNode) :
    (removeNode g s node).nodesAvail (nodeIndex g node) node.disparity
      = false := by
  rw [removeNode_nodesAvail]
  dsimp only
  rw [if_pos ⟨rfl, rfl⟩]

lemma removeNode_clears_edges (g : DisparityGraph) (s : BGraph)
    (node : DisparityNode) (nb : DisparityNode)
    (hnb : nb ∈ nodeNeighbors g node false) (ndisp : Nat)
    (hnd : ndisp ∈ List.range' (minNeighborDisparity g node nb)
      (maxNeighborDisparity g node nb
        - minNeighborDisparity g node nb)) :
    edgeAvailable g (removeNode g s node) node
      ⟨nb.row, nb.column, ndisp⟩ = false := by
  unfold removeNode
  refine foldl_estab_mem _
    (fun s' => edgeAvailable g s' node ⟨nb.row, nb.column, ndisp⟩ = false)
    _ ?_ nb ?_ hnb _
  · intro s' a _ hP
    refine foldl_pres_mem _
      (fun s2 => edgeAvailable g s2 node ⟨nb.row, nb.column, ndisp⟩ = false)
      _ ?_ _ hP
    intro s'' nd' _ hP2
    exact edgeAvailable_false_pres g node ⟨a.row, a.column, nd'⟩ node
      ⟨nb.row, nb.column, ndisp⟩ hP2
  · intro s'
    refine foldl_estab_mem _
      (fun s2 => edgeAvailable g s2 node ⟨nb.row, nb.column, ndisp⟩ = false)
      _ ?_ ndisp ?_ hnd _
    · intro s'' nd' _ hP2
      exact edgeAvailable_false_pres g node ⟨nb.row, nb.column, nd'⟩ node
        ⟨nb.row, nb.column, ndisp⟩ hP2
    · intro s''
      exact removeEdge_clears g s'' node ⟨nb.row, nb.column, ndisp⟩

lemma wipeAll_clears_nodes (g : DisparityGraph) (s : BGraph)
    (node0 : DisparityNode) (h0 : node0 ∈ availableNodes g)
    (dsp : Nat) (hd : dsp ∈ graphNodeDisparities g node0) :
    (wipeAll g s).nodesAvail (nodeIndex g node0) dsp = false := by
  unfold wipeAll
  refine foldl_estab_mem _
    (fun s2 : BGraph => s2.nodesAvail (nodeIndex g node0) dsp = false)
    _ ?_ node0 ?_ h0 _
  · intro s' a _ hP
    refine foldl_pres_mem _
      (fun s2 : BGraph => s2.nodesAvail (nodeIndex g node0) dsp = false) _ ?_ _ hP
    intro s'' d' _ hP2
    exact nodesAvail_false_pres_removeNode g ⟨a.row, a.column, d'⟩ _ _ hP2
  · intro s'
    refine foldl_estab_mem _
      (fun s2 : BGraph => s2.nodesAvail (nodeIndex g node0) dsp = false)
      _ ?_ dsp ?_ hd _
    · intro s'' d' _ hP2
      exact nodesAvail_false_pres_removeNode g
        ⟨node0.row, node0.column, d'⟩ _ _ hP2
    · intro s''
      exact removeNode_clears_node g s'' ⟨node0.row, node0.column, dsp⟩

lemma wipeAll_clears_edges (g : DisparityGraph) (s : BGraph)
    (node0 : DisparityNode) (h0 : node0 ∈ availableNodes g)
    (dsp : Nat) (hd : dsp ∈ graphNodeDisparities g node0)
    (nb : DisparityNode)
    (hnb : nb ∈ nodeNeighbors g ⟨node0.row, node0.column, dsp⟩ false)
    (ndisp : Nat)
    (hnd : ndisp ∈ List.range'
      (minNeighborDisparity g ⟨node0.row, node0.column, dsp⟩ nb)
      (maxNeighborDisparity g ⟨node0.row, node0.column, dsp⟩ nb
        - minNeighborDisparity g ⟨node0.row, node0.column, dsp⟩ nb)) :
    edgeAvailable g (wipeAll g s) ⟨node0.row, node0.column, dsp⟩
      ⟨nb.row, nb.column, ndisp⟩ = false := by
  unfold wipeAll
  refine foldl_estab_mem _
    (fun s2 : BGraph => edgeAvailable g s2 ⟨node0.row, node0.column, dsp⟩
      ⟨nb.row, nb.column, ndisp⟩ = false)
    _ ?_ node0 ?_ h0 _
  · intro s' a _ hP
    refine foldl_pres_mem _
      (fun s2 : BGraph => edgeAvailable g s2 ⟨node0.row, node0.column, dsp⟩
        ⟨nb.row, nb.column, ndisp⟩ = false) _ ?_ _ hP
    intro s'' d' _ hP2
    exact edgeAvailable_false_pres_removeNode g ⟨a.row, a.column, d'⟩ _ _ hP2
  · intro s'
    refine foldl_estab_mem _
      (fun s2 : BGraph => edgeAvailable g s2 ⟨node0.row, node0.column, dsp⟩
        ⟨nb.row, nb.column, ndisp⟩ = false)
      _ ?_ dsp ?_ hd _
    · intro s'' d' _ hP2
      exact edgeAvailable_false_pres_removeNode g
        ⟨node0.row, node0.column, d'⟩ _ _ hP2
    · intro s''
      exact removeNode_clears_edges g s'' ⟨node0.row, node0.column, dsp⟩
        nb hnb ndisp hnd

lemma anyNodeAvailable_of (g : DisparityGraph) (s : BGraph)
    (node0 : DisparityNode) (h0 : node0 ∈ availableNodes g)
    (dsp : Nat) (hd : dsp ∈ graphNodeDisparities g node0)
    (h : bgNodeAvailable g s ⟨node0.row, node0.column, dsp⟩ = true) :
    anyNodeAvailable g s = true := by
  unfold anyNodeAvailable
  rw [List.any_eq_true]
  refine ⟨node0, h0, ?_⟩
  rw [List.any_eq_true]
  exact ⟨dsp, hd, h⟩

lemma deletionScan_unchanged (g : DisparityGraph) (s0 : BGraph) :
    ((deletionScan g s0).2.1 = false → (deletionScan g s0).1 = s0)
    ∧ ((deletionScan g s0).2.1 = false → (deletionScan g s0).2.2 = true →
        anyNodeAvailable g (deletionScan g s0).1 = true) := by
  unfold deletionScan
  refine foldl_pres_mem (deletionNodeStep g)
    (fun acc : BGraph × Bool × Bool =>
      (acc.2.1 = false → acc.1 = s0)
      ∧ (acc.2.1 = false → acc.2.2 = true →
          anyNodeAvailable g acc.1 = true))
    (availableNodes g) ?_ (s0, false, false)
    ⟨fun _ => rfl, fun _ h => Bool.noConfusion h⟩
  intro acc node0 h0 hI
  unfold deletionNodeStep
  refine foldl_pres_mem _
    (fun a : BGraph × Bool × Bool =>
      (a.2.1 = false → a.1 = s0)
      ∧ (a.2.1 = false → a.2.2 = true →
          anyNodeAvailable g a.1 = true))
    _ ?_ _ ⟨fun h => hI.1 h, fun _ h => Bool.noConfusion h⟩
  intro a disp hdisp hIa
  dsimp only
  split_ifs with hav
  · exact hIa
  · have hav' : bgNodeAvailable g a.1
        ⟨node0.row, node0.column, disp⟩ = true := by
      cases hb : bgNodeAvailable g a.1 ⟨node0.row, node0.column, disp⟩ with
      | false => exact absurd hb hav
      | true => rfl
    refine (foldl_pres_mem _
      (fun b : BGraph × Bool × Bool =>
        ((b.2.1 = false → b.1 = s0)
          ∧ (b.2.1 = false → b.2.2 = true →
              anyNodeAvailable g b.1 = true))
        ∧ (b.2.1 = false → b.1 = a.1))
      _ ?_ a ⟨hIa, fun _ => rfl⟩).1
    intro b nb _ hJ
    dsimp only
    split_ifs with hfound
    · exact ⟨⟨fun h => h.elim, fun h => h.elim⟩, fun h => h.elim⟩
    · refine ⟨⟨?_, ?_⟩, ?_⟩
      · intro h
        exact hJ.1.1 h
      · intro h _
        have hb1 : b.1 = a.1 := hJ.2 h
        dsimp only
        rw [hb1]
        exact anyNodeAvailable_of g a.1 node0 h0 disp hdisp hav'
      · intro h
        exact hJ.2 h

lemma runDeletions_last (g : DisparityGraph) :
    ∀ (fuel : Nat) (s s1 : BGraph), runDeletions g fuel s = some s1 →
      ∃ s0, deletionIteration g s0 = (s1, false) := by
  intro fuel
  induction fuel with
  | zero =>
    intro s s1 h
    simp only [runDeletions] at h
    exact Option.noConfusion h
  | succ n ih =>
    intro s s1 h
    unfold runDeletions at h
    split_ifs at h with hc
    · exact ih _ _ h
    · refine ⟨s, ?_⟩
      obtain rfl := Option.some.inj h
      have h2 : (deletionIteration g s).2 = false := by
        cases hv : (deletionIteration g s).2 with
        | false => rfl
        | true => exact absurd hv hc
      calc deletionIteration g s
          = ((deletionIteration g s).1, (deletionIteration g s).2) := rfl
        _ = ((deletionIteration g s).1, false) := by rw [h2]

lemma deletionIteration_false (g : DisparityGraph) (s0 s1 : BGraph)
    (h : deletionIteration g s0 = (s1, false)) :
    anyNodeAvailable g s1 = true
    ∨ ((∀ node0 ∈ availableNodes g, ∀ dsp ∈ graphNodeDisparities g node0,
          s1.nodesAvail (nodeIndex g node0) dsp = false)
        ∧ (∀ node0 ∈ availableNodes g,
            ∀ dsp ∈ graphNodeDisparities g node0,
            ∀ nb ∈ nodeNeighbors g ⟨node0.row, node0.column, dsp⟩ false,
              ∀ ndisp ∈ List.range'
                (minNeighborDisparity g ⟨node0.row, node0.column, dsp⟩ nb)
                (maxNeighborDisparity g ⟨node0.row, node0.column, dsp⟩ nb
                  - minNeighborDisparity g
                      ⟨node0.row, node0.column, dsp⟩ nb),
                edgeAvailable g s1 ⟨node0.row, node0.column, dsp⟩
                  ⟨nb.row, nb.column, ndisp⟩ = false)) := by
  unfold deletionIteration at h
  split_ifs at h with hge
  · right
    injection h with h1 h2
    constructor
    · intro n0 h0 dsp hd
      rw [← h1]
      exact wipeAll_clears_nodes g _ n0 h0 dsp hd
    · intro n0 h0 dsp hd nb hnb ndisp hnd
      rw [← h1]
      exact wipeAll_clears_edges g _ n0 h0 dsp hd nb hnb ndisp hnd
  · left
    injection h with h1 h2
    have hmain := deletionScan_unchanged g s0
    have hge' : (deletionScan g s0).2.2 = true := by
      cases hv : (deletionScan g s0).2.2 with
      | false => exact absurd hv hge
      | true => rfl
    have hres := hmain.2 h2 hge'
    rw [h1] at hres
    exact hres

/-- C4: BooleanGraph::isFinished (modelled with fuel for the source's
unbounded while loop) runs the deletion loop until an iteration reports
no change, and returns true exactly when some admissible label of some
node is still available in the final state; when it returns false,
every node-availability bit and every edge-availability bit addressed
by the graph has been cleared. -/
theorem bgIsFinished_spec (g : DisparityGraph) (fuel : Nat) (s : BGraph)
    (b : Bool) (s1 : BGraph)
    (hrun : bgIsFinished g fuel s = some (b, s1)) :
    (∃ s0, deletionIteration g s0 = (s1, false))
    ∧ (b = true ↔ ∃ node0 ∈ availableNodes g,
        ∃ dsp ∈ graphNodeDisparities g node0,
          bgNodeAvailable g s1 ⟨node0.row, node0.column, dsp⟩ = true)
    ∧ (b = false →
        (∀ node0 ∈ availableNodes g, ∀ dsp ∈ graphNodeDisparities g node0,
          s1.nodesAvail (nodeIndex g node0) dsp = false)
        ∧ (∀ node0 ∈ availableNodes g,
            ∀ dsp ∈ graphNodeDisparities g node0,
            ∀ nb ∈ nodeNeighbors g ⟨node0.row, node0.column, dsp⟩ false,
              ∀ ndisp ∈ List.range'
                (minNeighborDisparity g ⟨node0.row, node0.column, dsp⟩ nb)
                (maxNeighborDisparity g ⟨node0.row, node0.column, dsp⟩ nb
                  - minNeighborDisparity g
                      ⟨node0.row, node0.column, dsp⟩ nb),
                edgeAvailable g s1 ⟨node0.row, node0.column, dsp⟩
                  ⟨nb.row, nb.column, ndisp⟩ = false)) := by
  unfold bgIsFinished at hrun
  obtain ⟨s1', hs1, heq⟩ := Option.map_eq_some'.mp hrun
  injection heq with hb hss
  subst hss
  subst hb
  refine ⟨runDeletions_last g fuel s s1' hs1, ?_, ?_⟩
  · unfold anyNodeAvailable
    rw [List.any_eq_true]
    constructor
    · rintro ⟨n0, h0, hin⟩
      rw [List.any_eq_true] at hin
      obtain ⟨dsp, hd, hbit⟩ := hin
      exact ⟨n0, h0, dsp, hd, hbit⟩
    · rintro ⟨n0, h0, dsp, hd, hbit⟩
      refine ⟨n0, h0, ?_⟩
      rw [List.any_eq_true]
      exact ⟨dsp, hd, hbit⟩
  · intro hfalse
    obtain ⟨s0, hiter⟩ := runDeletions_last g fuel s s1' hs1
    rcases deletionIteration_false g s0 s1' hiter with hany | hclear
    · rw [hany] at hfalse
      exact Bool.noConfusion hfalse
    · exact hclear

/-- The all-true BooleanGraph state (the state BooleanGraph::initialize
produces on the addressed entries). -/
def bgS0 : BGraph := ⟨fun _ _ => true, fun _ _ _ _ => true⟩

/-- The result of a concrete isFinished run on the 2-by-2 zero graph. -/
def bgRes : Bool × BGraph := (bgIsFinished graphW 2 bgS0).getD (false, bgS0)

/-- C4 witness: a concrete isFinished run on the 2-by-2 zero graph with
all availability bits set terminates, and its boolean result is
characterized by the survival of an admissible label. -/
theorem bgIsFinished_spec_witness :
    bgIsFinished graphW 2 bgS0 = some (bgRes.1, bgRes.2)
    ∧ (bgRes.1 = true ↔ ∃ node0 ∈ availableNodes graphW,
        ∃ dsp ∈ graphNodeDisparities graphW node0,
          bgNodeAvailable graphW bgRes.2
            ⟨node0.row, node0.column, dsp⟩ = true) :=
  ⟨rfl, (bgIsFinished_spec graphW 2 bgS0 bgRes.1 bgRes.2 rfl).2.1⟩

/-- Pixelwise agreement of two images: the buffers have the same shape
and equal pixels at every in-range coordinate. -/
def imgEq (a b : Img) : Prop :=
  a.rows = b.rows ∧ a.cols = b.cols
  ∧ ∀ r c, r < a.rows → c < a.cols → a.pix r c = b.pix r c

/-- DiffusionDisparityFinder::iterationThread_: process every node of
the selected color class whose index lies in the worker's residue
class, at every admissible label, in row-major node order (node.index
is modelled from the spec as the row-major index). -/
def iterationThread (g : DisparityGraph) (modulo offset : Nat)
    (first : Bool) (phi : Phi) : Option Phi :=
  (availableNodes g).foldlM
    (fun acc node =>
      if first = true ∧ ((node.row ^^^ node.column) &&& 1) ≠ 0 then
        pure acc
      else if first = false ∧ ((node.row ^^^ node.column) &&& 1) = 0 then
        pure acc
      else if nodeIndex g node % modulo ≠ offset then
        pure acc
      else
        (graphNodeDisparities g node).foldlM
          (fun acc2 disp =>
            processNode g acc2 ⟨node.row, node.column, disp⟩) acc)
    phi

/-- DiffusionDisparityFinder::iteration_: with modulo 1 each phase has
a single worker that is joined before the next phase starts, so an
iteration is the even-color pass followed by the odd-color pass. -/
def iteration (g : DisparityGraph) (phi : Phi) : Option Phi :=
  (iterationThread g 1 0 true phi).bind (iterationThread g 1 0 false)

/-- n iterations of the diffusion loop. -/
def iterateDiffusion (g : DisparityGraph) : Nat → Phi → Option Phi
  | 0, phi => some phi
  | n + 1, phi => (iteration g phi).bind (iterateDiffusion g n)

/-- The sequential schedule of one color phase: the pixels of the
requested color in row-major order, each carrying its admissible labels
in increasing order. -/
def phaseSchedule (g : DisparityGraph) (first : Bool) :
    List DisparityNode :=
  ((availableNodes g).filter fun node =>
    if first = true then decide (((node.row ^^^ node.column) &&& 1) = 0)
    else decide (((node.row ^^^ node.column) &&& 1) ≠ 0)).flatMap
    fun node => (graphNodeDisparities g node).map
      fun disp => ⟨node.row, node.column, disp⟩

/-- DiffusionDisparityFinder::initialiseAvailability_: reset the
availability mask (initialize sets every addressed bit, so the fresh
mask is modelled as the all-true state), then remove every directed
edge whose reparametrized penalty exceeds the pair's minimal edge
penalty plus the threshold. -/
def initialiseAvailability (g : DisparityGraph) (phi : Phi)
    (threshold : Rat) : Option BGraph :=
  (availableNodes g).foldlM
    (fun (st : BGraph) node0 =>
      (nodeNeighbors g node0 true).foldlM
        (fun (st1 : BGraph) nb => do
          let minPen ← (graphNodeDisparities g node0).foldlM
            (fun (acc : WithTop Rat) disp => do
              let m ← minEdgePenalty g phi
                ⟨node0.row, node0.column, disp⟩ nb
              pure (min acc ((m : Rat) : WithTop Rat)))
            (⊤ : WithTop Rat)
          (graphNodeDisparities g node0).foldlM
            (fun (st2 : BGraph) disp =>
              (List.range'
                (minNeighborDisparity g
                  ⟨node0.row, node0.column, disp⟩ nb)
                (maxNeighborDisparity g
                  ⟨node0.row, node0.column, disp⟩ nb
                  - minNeighborDisparity g
                      ⟨node0.row, node0.column, disp⟩ nb)).foldlM
                (fun (st3 : BGraph) ndisp => do
                  let pp ← passedPenalty g phi
                    ⟨node0.row, node0.column, disp⟩
                    ⟨nb.row, nb.column, ndisp⟩
                  if ((pp : Rat) : WithTop Rat)
                      + penalty g ⟨node0.row, node0.column, disp⟩
                          ⟨nb.row, nb.column, ndisp⟩
                      > minPen + ((threshold : Rat) : WithTop Rat) then
                    pure (removeEdge g st3
                      ⟨node0.row, node0.column, disp⟩
                      ⟨nb.row, nb.column, ndisp⟩)
                  else
                    pure st3)
                st2)
            st1)
        st)
    bgS0

/-- DiffusionDisparityFinder::isFinished_: rebuild the availability
mask, then run the BooleanGraph fixed-point check (fuelled). -/
def diffIsFinished (g : DisparityGraph) (phi : Phi) (threshold : Rat)
    (fuel : Nat) : Option (Bool × BGraph) :=
  (initialiseAvailability g phi threshold).bind fun st =>
    bgIsFinished g fuel st

/-- DiffusionDisparityFinder::getBestLabeling_: for every pixel in
row-major order, the first admissible label still available in the
mask; none models the assert that such a label exists. -/
def getBestLabeling (g : DisparityGraph) (st : BGraph) :
    Option (List Nat) :=
  (availableNodes g).mapM fun node0 =>
    (graphNodeDisparities g node0).find?
      fun disp => bgNodeAvailable g st ⟨node0.row, node0.column, disp⟩

/-- The while loop of DiffusionDisparityFinder::find, with fuel for the
outer loop and for the inner BooleanGraph loop. -/
def findLoop (g : DisparityGraph) (threshold : Rat) :
    Nat → Nat → Phi → Option (List Nat)
  | 0, _, _ => none
  | fo + 1, fi, phi =>
    (diffIsFinished g phi threshold fi).bind fun r =>
      if r.1 = true then getBestLabeling g r.2
      else (iteration g phi).bind (findLoop g threshold fo fi)

/-- DiffusionDisparityFinder::find: reset the messages to zero, compute
the (integer-divided) threshold, loop until isFinished_, then extract
the best labeling. -/
def find (g : DisparityGraph) (fo fi : Nat) : Option (List Nat) :=
  findLoop g (diffusionThreshold g.rightImage.rows g.rightImage.cols)
    fo fi (fun _ _ _ => 0)

lemma foldlM_append_opt {α β : Type} (f : β → α → Option β)
    (l1 l2 : List α) :
    ∀ b, (l1 ++ l2).foldlM f b = (l1.foldlM f b).bind (l2.foldlM f) := by
  induction l1 with
  | nil =>
    intro b
    rw [List.nil_append, List.foldlM_nil]
    rfl
  | cons x xs ih =>
    intro b
    rw [List.cons_append, List.foldlM_cons, List.foldlM_cons]
    cases f b x with
    | none => rfl
    | some b2 =>
      have h1 : ∀ (k : β → Option β), (some b2 >>= k) = k b2 :=
        fun _ => rfl
      show ((xs ++ l2).foldlM f b2) = _
      rw [ih b2]
      rfl

lemma foldlM_map_opt {α γ β : Type} (e : α → γ) (f : β → γ → Option β)
    (l : List α) :
    ∀ b, (l.map e).foldlM f b = l.foldlM (fun b2 a => f b2 (e a)) b := by
  induction l with
  | nil => intro b; rfl
  | cons x xs ih =>
    intro b
    rw [List.map_cons, List.foldlM_cons, List.foldlM_cons]
    cases f b (e x) with
    | none => rfl
    | some b2 =>
      show ((xs.map e).foldlM f b2 : Option β) = _
      rw [ih b2]
      rfl

lemma iterationThread_schedule (g : DisparityGraph) (first : Bool)
    (phi : Phi) :
    iterationThread g 1 0 first phi
      = (phaseSchedule g first).foldlM
          (fun acc nd => processNode g acc nd) phi := by
  unfold iterationThread phaseSchedule
  generalize availableNodes g = L
  induction L generalizing phi with
  | nil => rfl
  | cons x xs ih =>
    rw [List.foldlM_cons]
    by_cases hcolor : ((x.row ^^^ x.column) &&& 1) = 0
    · cases first with
      | true =>
        rw [if_neg fun h => h.2 hcolor, if_neg fun h => Bool.noConfusion h.1,
          if_neg fun h => h (Nat.mod_one _),
          List.filter_cons_of_pos
            (by rw [if_pos rfl]; exact decide_eq_true hcolor),
          List.flatMap_cons, foldlM_append_opt, foldlM_map_opt]
        rw [show (fun b' => xs.foldlM (fun acc node =>
            if true = true ∧ ((node.row ^^^ node.column) &&& 1) ≠ 0 then
              pure acc
            else if true = false ∧ ((node.row ^^^ node.column) &&& 1) = 0
              then pure acc
            else if nodeIndex g node % 1 ≠ 0 then pure acc
            else (graphNodeDisparities g node).foldlM
              (fun acc2 disp =>
                processNode g acc2 ⟨node.row, node.column, disp⟩) acc) b')
          = fun b' => ((xs.filter fun node =>
              if true = true
              then decide (((node.row ^^^ node.column) &&& 1) = 0)
              else decide (((node.row ^^^ node.column) &&& 1) ≠ 0)).flatMap
              fun node => (graphNodeDisparities g node).map
                fun disp => ⟨node.row, node.column, disp⟩).foldlM
              (fun acc nd => processNode g acc nd) b'
          from funext fun b' => ih b']
        rfl
      | false =>
        rw [if_neg fun h => Bool.noConfusion h.1, if_pos ⟨rfl, hcolor⟩,
          List.filter_cons_of_neg
            (by rw [if_neg fun h => Bool.noConfusion h]
                exact fun hq => (of_decide_eq_true hq) hcolor)]
        exact ih phi
    · cases first with
      | true =>
        rw [if_pos ⟨rfl, hcolor⟩,
          List.filter_cons_of_neg
            (by rw [if_pos rfl]; exact fun hq => hcolor (of_decide_eq_true hq))]
        exact ih phi
      | false =>
        rw [if_neg fun h => Bool.noConfusion h.1, if_neg fun h => hcolor h.2,
          if_neg fun h => h (Nat.mod_one _),
          List.filter_cons_of_pos
            (by rw [if_neg fun h => Bool.noConfusion h]
                exact decide_eq_true hcolor),
          List.flatMap_cons, foldlM_append_opt, foldlM_map_opt]
        rw [show (fun b' => xs.foldlM (fun acc node =>
            if false = true ∧ ((node.row ^^^ node.column) &&& 1) ≠ 0 then
              pure acc
            else if false = false ∧ ((node.row ^^^ node.column) &&& 1) = 0
              then pure acc
            else if nodeIndex g node % 1 ≠ 0 then pure acc
            else (graphNodeDisparities g node).foldlM
              (fun acc2 disp =>
                processNode g acc2 ⟨node.row, node.column, disp⟩) acc) b')
          = fun b' => ((xs.filter fun node =>
              if false = true
              then decide (((node.row ^^^ node.column) &&& 1) = 0)
              else decide (((node.row ^^^ node.column) &&& 1) ≠ 0)).flatMap
              fun node => (graphNodeDisparities g node).map
                fun disp => ⟨node.row, node.column, disp⟩).foldlM
              (fun acc nd => processNode g acc nd) b'
          from funext fun b' => ih b']
        rfl

lemma nodeIndex_congr (g1 g2 : DisparityGraph)
    (hc : g1.rightImage.cols = g2.rightImage.cols) :
    nodeIndex g1 = nodeIndex g2 := by
  funext node
  unfold nodeIndex
  rw [hc]

lemma availableNodes_congr (g1 g2 : DisparityGraph)
    (hr : g1.rightImage.rows = g2.rightImage.rows)
    (hc : g1.rightImage.cols = g2.rightImage.cols) :
    availableNodes g1 = availableNodes g2 := by
  unfold availableNodes
  rw [hr, hc]

lemma nodeNeighbors_congr (g1 g2 : DisparityGraph)
    (hr : g1.rightImage.rows = g2.rightImage.rows)
    (hc : g1.rightImage.cols = g2.rightImage.cols) :
    nodeNeighbors g1 = nodeNeighbors g2 := by
  funext node directed
  unfold nodeNeighbors
  rw [hr, hc]

lemma nodeNeighborsCount_congr (g1 g2 : DisparityGraph)
    (hr : g1.rightImage.rows = g2.rightImage.rows)
    (hc : g1.rightImage.cols = g2.rightImage.cols) :
    nodeNeighborsCount g1 = nodeNeighborsCount g2 := by
  funext node directed
  unfold nodeNeighborsCount
  rw [hr, hc]

lemma maxNeighborDisparity_congr (g1 g2 : DisparityGraph)
    (hl : g1.leftImage.cols = g2.leftImage.cols) :
    maxNeighborDisparity g1 = maxNeighborDisparity g2 := by
  funext node nb
  unfold maxNeighborDisparity
  rw [hl]

lemma graphNodeDisparities_congr (g1 g2 : DisparityGraph)
    (hl : g1.leftImage.cols = g2.leftImage.cols) :
    graphNodeDisparities g1 = graphNodeDisparities g2 := by
  funext node
  unfold graphNodeDisparities minDisparity maxDisparity
  rw [hl]

lemma passedPenalty_congr (g1 g2 : DisparityGraph)
    (hc : g1.rightImage.cols = g2.rightImage.cols) :
    passedPenalty g1 = passedPenalty g2 := by
  funext phi node nb
  unfold passedPenalty
  rw [nodeIndex_congr g1 g2 hc]

lemma changePassedPenalty_congr (g1 g2 : DisparityGraph)
    (hc : g1.rightImage.cols = g2.rightImage.cols) :
    changePassedPenalty g1 = changePassedPenalty g2 := by
  funext phi node nb change
  unfold changePassedPenalty
  rw [nodeIndex_congr g1 g2 hc]

lemma maxNeighborDisparity_le (g : DisparityGraph)
    (node nb : DisparityNode) :
    maxNeighborDisparity g node nb ≤ g.leftImage.cols - nb.column := by
  unfold maxNeighborDisparity
  split_ifs
  · exact le_refl _
  · exact min_le_right _ _
  · exact le_refl _
  · exact Nat.zero_le _

lemma mapM_congr_opt {α β : Type} (l : List α) (f1 f2 : α → Option β)
    (h : ∀ x ∈ l, f1 x = f2 x) : l.mapM f1 = l.mapM f2 := by
  induction l with
  | nil => rfl
  | cons x xs ih =>
    rw [List.mapM_cons, List.mapM_cons, h x (by simp),
      ih fun y hy => h y (by simp [hy])]

lemma foldlM_congr_opt {α β : Type} (l : List α) (f1 f2 : β → α → Option β)
    (h : ∀ b a, a ∈ l → f1 b a = f2 b a) :
    ∀ b, l.foldlM f1 b = l.foldlM f2 b := by
  induction l with
  | nil => intro b; rfl
  | cons x xs ih =>
    intro b
    rw [List.foldlM_cons, List.foldlM_cons, h b x (by simp)]
    exact congrArg _ (funext fun b' =>
      ih (fun b2 a ha => h b2 a (by simp [ha])) b')

lemma mem_nodeNeighbors_bounds {g : DisparityGraph} {node nb : DisparityNode}
    (h : nb ∈ nodeNeighbors g node false)
    (h1 : node.row < g.rightImage.rows)
    (h2 : node.column < g.rightImage.cols) :
    nb.row < g.rightImage.rows ∧ nb.column < g.rightImage.cols := by
  rcases mem_nodeNeighbors h with ⟨rfl, hb⟩ | ⟨rfl, hb⟩ | ⟨rfl, hb⟩ | ⟨rfl, hb⟩ <;>
    exact ⟨by dsimp only; omega, by dsimp only; omega⟩

lemma nodePenalty_congr (g1 g2 : DisparityGraph)
    (hL : imgEq g1.leftImage g2.leftImage)
    (hR : imgEq g1.rightImage g2.rightImage)
    (hrows : g1.rightImage.rows ≤ g1.leftImage.rows)
    (node : DisparityNode)
    (h1 : node.row < g1.rightImage.rows)
    (h2 : node.column < g1.rightImage.cols)
    (h3 : node.column + node.disparity < g1.leftImage.cols) :
    nodePenalty g1 node = nodePenalty g2 node := by
  obtain ⟨hRr, hRc, hRp⟩ := hR
  obtain ⟨hLr, hLc, hLp⟩ := hL
  unfold nodePenalty
  rw [hRp node.row node.column h1 h2,
    hLp node.row (node.column + node.disparity) (by omega) h3]

lemma penalty_congr (g1 g2 : DisparityGraph)
    (hL : imgEq g1.leftImage g2.leftImage)
    (hR : imgEq g1.rightImage g2.rightImage)
    (hcons : g1.consistency = g2.consistency)
    (hrows : g1.rightImage.rows ≤ g1.leftImage.rows)
    (A B : DisparityNode)
    (hA1 : A.row < g1.rightImage.rows)
    (hA2 : A.column < g1.rightImage.cols)
    (hA3 : A.column + A.disparity < g1.leftImage.cols)
    (hB1 : B.row < g1.rightImage.rows)
    (hB2 : B.column < g1.rightImage.cols)
    (hB3 : B.column + B.disparity < g1.leftImage.cols) :
    penalty g1 A B = penalty g2 A B := by
  unfold penalty
  split_ifs with h
  · rfl
  · rw [nodePenalty_congr g1 g2 hL hR hrows A hA1 hA2 hA3,
      nodePenalty_congr g1 g2 hL hR hrows B hB1 hB2 hB3,
      nodeNeighborsCount_congr g1 g2 hR.1 hR.2.1, hcons]

lemma minEdgePenalty_congr (g1 g2 : DisparityGraph)
    (hL : imgEq g1.leftImage g2.leftImage)
    (hR : imgEq g1.rightImage g2.rightImage)
    (hcons : g1.consistency = g2.consistency)
    (hrows : g1.rightImage.rows ≤ g1.leftImage.rows)
    (phi : Phi) (node nb : DisparityNode)
    (h1 : node.row < g1.rightImage.rows)
    (h2 : node.column < g1.rightImage.cols)
    (h3 : node.column + node.disparity < g1.leftImage.cols)
    (hnb1 : nb.row < g1.rightImage.rows)
    (hnb2 : nb.column < g1.rightImage.cols) :
    minEdgePenalty g1 phi node nb = minEdgePenalty g2 phi node nb := by
  unfold minEdgePenalty
  dsimp only
  rw [show minNeighborDisparity g1 = minNeighborDisparity g2 from rfl,
    maxNeighborDisparity_congr g1 g2 hL.2.1,
    passedPenalty_congr g1 g2 hR.2.1]
  congr 1
  refine mapM_congr_opt _ _ _ ?_
  intro d hd
  dsimp only
  have hdlt : d < maxNeighborDisparity g2 node nb := by
    rw [List.mem_range'_1] at hd
    omega
  have hdle := maxNeighborDisparity_le g2 node nb
  rw [penalty_congr g1 g2 hL hR hcons hrows node
    ⟨nb.row, nb.column, d⟩ h1 h2 h3 hnb1 hnb2 (by
      have hc2 : g2.leftImage.cols = g1.leftImage.cols := hL.2.1.symm
      dsimp only
      omega)]

lemma processNode_congr (g1 g2 : DisparityGraph)
    (hL : imgEq g1.leftImage g2.leftImage)
    (hR : imgEq g1.rightImage g2.rightImage)
    (hcons : g1.consistency = g2.consistency)
    (hrows : g1.rightImage.rows ≤ g1.leftImage.rows)
    (phi : Phi) (node : DisparityNode)
    (h1 : node.row < g1.rightImage.rows)
    (h2 : node.column < g1.rightImage.cols)
    (h3 : node.column + node.disparity < g1.leftImage.cols) :
    processNode g1 phi node = processNode g2 phi node := by
  unfold processNode
  dsimp only
  rw [nodeNeighbors_congr g1 g2 hR.1 hR.2.1,
    changePassedPenalty_congr g1 g2 hR.2.1]
  congr 1
  refine foldlM_congr_opt _ _ _ ?_ _
  intro b nb hnbm
  dsimp only
  have hRr := hR.1
  have hRc := hR.2.1
  have hb := mem_nodeNeighbors_bounds hnbm (by omega) (by omega)
  have hb1 := hb.1
  have hb2 := hb.2
  rw [minEdgePenalty_congr g1 g2 hL hR hcons hrows b.1 node nb h1 h2 h3
    (by omega) (by omega)]

lemma iterationThread_congr (g1 g2 : DisparityGraph)
    (hL : imgEq g1.leftImage g2.leftImage)
    (hR : imgEq g1.rightImage g2.rightImage)
    (hcons : g1.consistency = g2.consistency)
    (hrows : g1.rightImage.rows ≤ g1.leftImage.rows)
    (modulo offset : Nat) (first : Bool) (phi : Phi) :
    iterationThread g1 modulo offset first phi
      = iterationThread g2 modulo offset first phi := by
  unfold iterationThread
  rw [availableNodes_congr g1 g2 hR.1 hR.2.1,
    nodeIndex_congr g1 g2 hR.2.1,
    graphNodeDisparities_congr g1 g2 hL.2.1]
  refine foldlM_congr_opt _ _ _ ?_ phi
  intro acc node hmem
  dsimp only
  split_ifs with hc1 hc2 hc3
  · rfl
  · rfl
  · rfl
  · refine foldlM_congr_opt _ _ _ ?_ acc
    intro acc2 disp hdisp
    obtain ⟨r, c, hr, hc, rfl⟩ := mem_availableNodes hmem
    have hRr := hR.1
    have hRc := hR.2.1
    have hLc := hL.2.1
    have hdb : disp < g2.leftImage.cols - c := by
      unfold graphNodeDisparities minDisparity maxDisparity at hdisp
      rw [List.mem_range'_1] at hdisp
      dsimp only at hdisp
      omega
    exact processNode_congr g1 g2 hL hR hcons hrows acc2
      ⟨r, c, disp⟩ (by dsimp only; omega) (by dsimp only; omega)
      (by dsimp only; omega)

lemma iteration_congr (g1 g2 : DisparityGraph)
    (hL : imgEq g1.leftImage g2.leftImage)
    (hR : imgEq g1.rightImage g2.rightImage)
    (hcons : g1.consistency = g2.consistency)
    (hrows : g1.rightImage.rows ≤ g1.leftImage.rows) (phi : Phi) :
    iteration g1 phi = iteration g2 phi := by
  unfold iteration
  rw [iterationThread_congr g1 g2 hL hR hcons hrows 1 0 true phi]
  exact congrArg _ (funext fun phi1 =>
    iterationThread_congr g1 g2 hL hR hcons hrows 1 0 false phi1)

lemma iterateDiffusion_congr (g1 g2 : DisparityGraph)
    (hL : imgEq g1.leftImage g2.leftImage)
    (hR : imgEq g1.rightImage g2.rightImage)
    (hcons : g1.consistency = g2.consistency)
    (hrows : g1.rightImage.rows ≤ g1.leftImage.rows) :
    ∀ n phi, iterateDiffusion g1 n phi = iterateDiffusion g2 n phi := by
  intro n
  induction n with
  | zero => intro phi; rfl
  | succ m ih =>
    intro phi
    unfold iterateDiffusion
    rw [iteration_congr g1 g2 hL hR hcons hrows phi]
    exact congrArg _ (funext fun phi1 => ih phi1)

lemma bgNodeAvailable_congr (g1 g2 : DisparityGraph)
    (hc : g1.rightImage.cols = g2.rightImage.cols) :
    bgNodeAvailable g1 = bgNodeAvailable g2 := by
  funext s node
  unfold bgNodeAvailable
  rw [nodeIndex_congr g1 g2 hc]

lemma edgeAvailable_congr (g1 g2 : DisparityGraph)
    (hc : g1.rightImage.cols = g2.rightImage.cols) :
    edgeAvailable g1 = edgeAvailable g2 := by
  funext s node nb
  unfold edgeAvailable
  rw [nodeIndex_congr g1 g2 hc]

lemma removeEdge_congr (g1 g2 : DisparityGraph)
    (hc : g1.rightImage.cols = g2.rightImage.cols) :
    removeEdge g1 = removeEdge g2 := by
  funext s node nb
  unfold removeEdge
  rw [nodeIndex_congr g1 g2 hc]

lemma removeNode_congr (g1 g2 : DisparityGraph)
    (hr : g1.rightImage.rows = g2.rightImage.rows)
    (hc : g1.rightImage.cols = g2.rightImage.cols)
    (hl : g1.leftImage.cols = g2.leftImage.cols) :
    removeNode g1 = removeNode g2 := by
  funext s node
  unfold removeNode
  rw [nodeNeighbors_congr g1 g2 hr hc, removeEdge_congr g1 g2 hc,
    nodeIndex_congr g1 g2 hc,
    show minNeighborDisparity g1 = minNeighborDisparity g2 from rfl,
    maxNeighborDisparity_congr g1 g2 hl]

lemma deletionNodeStep_congr (g1 g2 : DisparityGraph)
    (hr : g1.rightImage.rows = g2.rightImage.rows)
    (hc : g1.rightImage.cols = g2.rightImage.cols)
    (hl : g1.leftImage.cols = g2.leftImage.cols) :
    deletionNodeStep g1 = deletionNodeStep g2 := by
  funext acc node0
  unfold deletionNodeStep
  rw [graphNodeDisparities_congr g1 g2 hl, bgNodeAvailable_congr g1 g2 hc,
    nodeNeighbors_congr g1 g2 hr hc,
    show minNeighborDisparity g1 = minNeighborDisparity g2 from rfl,
    maxNeighborDisparity_congr g1 g2 hl, edgeAvailable_congr g1 g2 hc,
    removeNode_congr g1 g2 hr hc hl]

lemma deletionScan_congr (g1 g2 : DisparityGraph)
    (hr : g1.rightImage.rows = g2.rightImage.rows)
    (hc : g1.rightImage.cols = g2.rightImage.cols)
    (hl : g1.leftImage.cols = g2.leftImage.cols) :
    deletionScan g1 = deletionScan g2 := by
  funext s
  unfold deletionScan
  rw [availableNodes_congr g1 g2 hr hc, deletionNodeStep_congr g1 g2 hr hc hl]

lemma wipeAll_congr (g1 g2 : DisparityGraph)
    (hr : g1.rightImage.rows = g2.rightImage.rows)
    (hc : g1.rightImage.cols = g2.rightImage.cols)
    (hl : g1.leftImage.cols = g2.leftImage.cols) :
    wipeAll g1 = wipeAll g2 := by
  funext s
  unfold wipeAll
  rw [availableNodes_congr g1 g2 hr hc,
    graphNodeDisparities_congr g1 g2 hl, removeNode_congr g1 g2 hr hc hl]

lemma deletionIteration_congr (g1 g2 : DisparityGraph)
    (hr : g1.rightImage.rows = g2.rightImage.rows)
    (hc : g1.rightImage.cols = g2.rightImage.cols)
    (hl : g1.leftImage.cols = g2.leftImage.cols) :
    deletionIteration g1 = deletionIteration g2 := by
  funext s
  unfold deletionIteration
  rw [deletionScan_congr g1 g2 hr hc hl, wipeAll_congr g1 g2 hr hc hl]

lemma runDeletions_congr (g1 g2 : DisparityGraph)
    (hr : g1.rightImage.rows = g2.rightImage.rows)
    (hc : g1.rightImage.cols = g2.rightImage.cols)
    (hl : g1.leftImage.cols = g2.leftImage.cols) :
    ∀ fuel s, runDeletions g1 fuel s = runDeletions g2 fuel s := by
  intro fuel
  induction fuel with
  | zero => intro s; rfl
  | succ m ih =>
    intro s
    unfold runDeletions
    rw [deletionIteration_congr g1 g2 hr hc hl]
    split_ifs
    · exact ih _
    · rfl

lemma anyNodeAvailable_congr (g1 g2 : DisparityGraph)
    (hr : g1.rightImage.rows = g2.rightImage.rows)
    (hc : g1.rightImage.cols = g2.rightImage.cols)
    (hl : g1.leftImage.cols = g2.leftImage.cols) :
    anyNodeAvailable g1 = anyNodeAvailable g2 := by
  funext s
  unfold anyNodeAvailable
  rw [availableNodes_congr g1 g2 hr hc,
    graphNodeDisparities_congr g1 g2 hl, bgNodeAvailable_congr g1 g2 hc]

lemma bgIsFinished_congr (g1 g2 : DisparityGraph)
    (hr : g1.rightImage.rows = g2.rightImage.rows)
    (hc : g1.rightImage.cols = g2.rightImage.cols)
    (hl : g1.leftImage.cols = g2.leftImage.cols)
    (fuel : Nat) (s : BGraph) :
    bgIsFinished g1 fuel s = bgIsFinished g2 fuel s := by
  unfold bgIsFinished
  rw [runDeletions_congr g1 g2 hr hc hl fuel s,
    anyNodeAvailable_congr g1 g2 hr hc hl]

lemma getBestLabeling_congr (g1 g2 : DisparityGraph)
    (hr : g1.rightImage.rows = g2.rightImage.rows)
    (hc : g1.rightImage.cols = g2.rightImage.cols)
    (hl : g1.leftImage.cols = g2.leftImage.cols) :
    getBestLabeling g1 = getBestLabeling g2 := by
  funext s
  unfold getBestLabeling
  rw [availableNodes_congr g1 g2 hr hc,
    graphNodeDisparities_congr g1 g2 hl, bgNodeAvailable_congr g1 g2 hc]

lemma initialiseAvailability_congr (g1 g2 : DisparityGraph)
    (hL : imgEq g1.leftImage g2.leftImage)
    (hR : imgEq g1.rightImage g2.rightImage)
    (hcons : g1.consistency = g2.consistency)
    (hrows : g1.rightImage.rows ≤ g1.leftImage.rows)
    (phi : Phi) (threshold : Rat) :
    initialiseAvailability g1 phi threshold
      = initialiseAvailability g2 phi threshold := by
  have hRr := hR.1
  have hRc := hR.2.1
  have hLc := hL.2.1
  unfold initialiseAvailability
  rw [availableNodes_congr g1 g2 hRr hRc,
    nodeNeighbors_congr g1 g2 hRr hRc,
    graphNodeDisparities_congr g1 g2 hLc,
    show minNeighborDisparity g1 = minNeighborDisparity g2 from rfl,
    maxNeighborDisparity_congr g1 g2 hLc,
    passedPenalty_congr g1 g2 hRc,
    removeEdge_congr g1 g2 hRc]
  refine foldlM_congr_opt _ _ _ ?_ bgS0
  intro st node0 hmem
  obtain ⟨r, c, hr, hc, rfl⟩ := mem_availableNodes hmem
  dsimp only
  refine foldlM_congr_opt _ _ _ ?_ st
  intro st1 nb hnbm
  dsimp only
  have hnb : nb.row < g2.rightImage.rows
      ∧ nb.column < g2.rightImage.cols := by
    rcases mem_nodeNeighbors_directed hnbm with ⟨rfl, hb⟩ | ⟨rfl, hb⟩ <;>
      dsimp only at hb ⊢ <;> exact ⟨by omega, by omega⟩
  have hnb1 := hnb.1
  have hnb2 := hnb.2
  congr 1
  · refine foldlM_congr_opt _ _ _ ?_ (⊤ : WithTop Rat)
    intro acc disp hdisp
    dsimp only
    have hdb : disp < g2.leftImage.cols - c := by
      unfold graphNodeDisparities minDisparity maxDisparity at hdisp
      rw [List.mem_range'_1] at hdisp
      dsimp only at hdisp
      omega
    rw [minEdgePenalty_congr g1 g2 hL hR hcons hrows phi
      ⟨r, c, disp⟩ nb (by dsimp only; omega) (by dsimp only; omega)
      (by dsimp only; omega) (by omega) (by omega)]
  · funext minPen
    refine foldlM_congr_opt _ _ _ ?_ st1
    intro st2 disp hdisp
    dsimp only
    have hdb : disp < g2.leftImage.cols - c := by
      unfold graphNodeDisparities minDisparity maxDisparity at hdisp
      rw [List.mem_range'_1] at hdisp
      dsimp only at hdisp
      omega
    refine foldlM_congr_opt _ _ _ ?_ st2
    intro st3 ndisp hndisp
    dsimp only
    have hnd : ndisp < maxNeighborDisparity g2 ⟨r, c, disp⟩ nb := by
      rw [List.mem_range'_1] at hndisp
      omega
    have hndle := maxNeighborDisparity_le g2 ⟨r, c, disp⟩ nb
    rw [penalty_congr g1 g2 hL hR hcons hrows
      ⟨r, c, disp⟩ ⟨nb.row, nb.column, ndisp⟩
      (by dsimp only; omega) (by dsimp only; omega) (by dsimp only; omega)
      (by dsimp only; omega) (by dsimp only; omega)
      (by dsimp only; omega)]

lemma diffIsFinished_congr (g1 g2 : DisparityGraph)
    (hL : imgEq g1.leftImage g2.leftImage)
    (hR : imgEq g1.rightImage g2.rightImage)
    (hcons : g1.consistency = g2.consistency)
    (hrows : g1.rightImage.rows ≤ g1.leftImage.rows)
    (phi : Phi) (threshold : Rat) (fuel : Nat) :
    diffIsFinished g1 phi threshold fuel
      = diffIsFinished g2 phi threshold fuel := by
  unfold diffIsFinished
  rw [initialiseAvailability_congr g1 g2 hL hR hcons hrows phi threshold]
  exact congrArg _ (funext fun st =>
    bgIsFinished_congr g1 g2 hR.1 hR.2.1 hL.2.1 fuel st)

lemma findLoop_congr (g1 g2 : DisparityGraph)
    (hL : imgEq g1.leftImage g2.leftImage)
    (hR : imgEq g1.rightImage g2.rightImage)
    (hcons : g1.consistency = g2.consistency)
    (hrows : g1.rightImage.rows ≤ g1.leftImage.rows)
    (threshold : Rat) :
    ∀ fo fi phi, findLoop g1 threshold fo fi phi
      = findLoop g2 threshold fo fi phi := by
  intro fo
  induction fo with
  | zero => intro fi phi; rfl
  | succ m ih =>
    intro fi phi
    unfold findLoop
    rw [diffIsFinished_congr g1 g2 hL hR hcons hrows phi threshold fi]
    refine congrArg _ (funext fun rr => ?_)
    split_ifs with hb
    · rw [getBestLabeling_congr g1 g2 hR.1 hR.2.1 hL.2.1]
    · rw [iteration_congr g1 g2 hL hR hcons hrows phi]
      exact congrArg _ (funext fun phi2 => ih fi phi2)

lemma find_congr (g1 g2 : DisparityGraph)
    (hL : imgEq g1.leftImage g2.leftImage)
    (hR : imgEq g1.rightImage g2.rightImage)
    (hcons : g1.consistency = g2.consistency)
    (hrows : g1.rightImage.rows ≤ g1.leftImage.rows)
    (fo fi : Nat) :
    find g1 fo fi = find g2 fo fi := by
  unfold find
  rw [hR.1, hR.2.1]
  exact findLoop_congr g1 g2 hL hR hcons hrows _ fo fi _

/-- C10: with modulo 1 each color phase of iteration_ is one joined
worker, so the nodes of each color are processed sequentially in
row-major order with their labels in increasing order; and the pipeline
is a deterministic function of the image contents: two graphs built
from pixelwise-equal images produce the same message tables after any
number of iterations and the same labeling from find. -/
theorem find_deterministic (g1 g2 : DisparityGraph)
    (hL : imgEq g1.leftImage g2.leftImage)
    (hR : imgEq g1.rightImage g2.rightImage)
    (hcons : g1.consistency = g2.consistency)
    (hrows : g1.rightImage.rows ≤ g1.leftImage.rows) :
    (∀ first phi, iterationThread g1 1 0 first phi
        = (phaseSchedule g1 first).foldlM
            (fun acc nd => processNode g1 acc nd) phi)
    ∧ (∀ n phi, iterateDiffusion g1 n phi = iterateDiffusion g2 n phi)
    ∧ ∀ fo fi, find g1 fo fi = find g2 fo fi :=
  ⟨fun first phi => iterationThread_schedule g1 first phi,
    iterateDiffusion_congr g1 g2 hL hR hcons hrows,
    fun fo fi => find_congr g1 g2 hL hR hcons hrows fo fi⟩

/-- A 2-by-2 graph whose images agree with graphW on the grid but
differ outside it. -/
def graphW2 : DisparityGraph :=
  ⟨⟨2, 2, fun r _ => if 2 ≤ r then 7 else 0⟩,
   ⟨2, 2, fun r _ => if 2 ≤ r then 5 else 0⟩, 1⟩

/-- C10 witness: the 2-by-2 zero graph and a graph equal to it on the
grid but different outside satisfy the hypotheses, the first phase is
the row-major even-color schedule, and find agrees on both. -/
theorem find_deterministic_witness :
    imgEq graphW.leftImage graphW2.leftImage
    ∧ imgEq graphW.rightImage graphW2.rightImage
    ∧ graphW.consistency = graphW2.consistency
    ∧ graphW.rightImage.rows ≤ graphW.leftImage.rows
    ∧ iterationThread graphW 1 0 true phiW0
        = (phaseSchedule graphW true).foldlM
            (fun acc nd => processNode graphW acc nd) phiW0
    ∧ find graphW 2 2 = find graphW2 2 2 := by
  have hL : imgEq graphW.leftImage graphW2.leftImage :=
    ⟨rfl, rfl, fun r c hr hc => by
      have hr2 : r < 2 := hr
      show (0 : Int) = if 2 ≤ r then 7 else 0
      rw [if_neg (by omega)]⟩
  have hR : imgEq graphW.rightImage graphW2.rightImage :=
    ⟨rfl, rfl, fun r c hr hc => by
      have hr2 : r < 2 := hr
      show (0 : Int) = if 2 ≤ r then 5 else 0
      rw [if_neg (by omega)]⟩
  refine ⟨hL, hR, rfl, by decide, ?_, ?_⟩
  · exact (find_deterministic graphW graphW2 hL hR rfl (by decide)).1
      true phiW0
  · exact (find_deterministic graphW graphW2 hL hR rfl (by decide)).2.2 2 2

end StereoVision
